import Mathlib

/-!
Verification development for the chess engine of the 3d-chess repository.

The definitions below are a shallow embedding of the engine sources:
 - the move generator (TurnGenerator.cpp),
 - the incremental material and piece-square-table evaluator
   (IncrementalMaterialAndPSTEvaluator.cpp),
 - the negamax search (Negamax.h) together with the transposition table
   (TranspositionTable.h is not available; it is modelled from the spec).

Machine 64-bit integers are modelled as Nat values kept below 2^64: every
left shift that can overflow in C++ is masked with 0xFFFFFFFFFFFFFFFF, and
the C++ complement operator on uint64_t becomes xor with that mask.
-/

namespace Chess3D

/-- PlayerColor from ChessTypes.h (header not in the sources).
Modelled from the spec: two variants White and Black plus a sentinel
NoPlayer used for empty squares and for "no winner". -/
inductive PlayerColor where
  | White
  | Black
  | NoPlayer
deriving DecidableEq, Repr

export PlayerColor (White Black NoPlayer)

/-- Opponent of a color; the sentinel maps to itself.
Modelled from the spec: toggle yields the opponent. -/
def togglePlayerColor : PlayerColor → PlayerColor
  | White => Black
  | Black => White
  | NoPlayer => NoPlayer

/-- PieceType from ChessTypes.h (header not in the sources).
Modelled from the spec: six variants in the fixed order King, Queen,
Bishop, Knight, Rook, Pawn; a seventh slot AllPieces denotes the union
bitboard per color, and NoType is the empty-square sentinel. -/
inductive PieceType where
  | King
  | Queen
  | Bishop
  | Knight
  | Rook
  | Pawn
  | AllPieces
  | NoType
deriving DecidableEq, Repr

export PieceType (King Queen Bishop Knight Rook Pawn AllPieces NoType)

/-- Numeric value of the C++ PieceType enum, used for comparisons such as
piece.type <= Pawn. -/
def pieceTypeIdx : PieceType → ℕ
  | King => 0
  | Queen => 1
  | Bishop => 2
  | Knight => 3
  | Rook => 4
  | Pawn => 5
  | AllPieces => 6
  | NoType => 7

/-- Piece from ChessTypes.h: a (color, type) pair; the empty-square
sentinel is (NoPlayer, NoType). -/
structure Piece where
  player : PlayerColor
  type : PieceType
deriving DecidableEq, Repr

/-- Turn actions from Turn.h (header not in the sources).
Modelled from the spec: action tags of a Turn record. -/
inductive TurnAction where
  | Move
  | Castle
  | PromotionQueen
  | PromotionBishop
  | PromotionRook
  | PromotionKnight
  | Pass
  | Forfeit
deriving DecidableEq, Repr

/-- Turn record: mover, origin square, target square and action tag.
Squares use the layout A1 = 0, B1 = 1, ..., H8 = 63.  The C++ field
names are from and to; from is a Lean keyword, hence fromSq and toSq. -/
structure Turn where
  piece : Piece
  fromSq : ℕ
  toSq : ℕ
  action : TurnAction
deriving DecidableEq, Repr

def Turn.move (p : Piece) (f t : ℕ) : Turn := ⟨p, f, t, TurnAction.Move⟩

def Turn.castle (p : Piece) (f t : ℕ) : Turn := ⟨p, f, t, TurnAction.Castle⟩

def Turn.promotionQueen (p : Piece) (f t : ℕ) : Turn :=
  ⟨p, f, t, TurnAction.PromotionQueen⟩

def Turn.promotionBishop (p : Piece) (f t : ℕ) : Turn :=
  ⟨p, f, t, TurnAction.PromotionBishop⟩

def Turn.promotionRook (p : Piece) (f t : ℕ) : Turn :=
  ⟨p, f, t, TurnAction.PromotionRook⟩

def Turn.promotionKnight (p : Piece) (f t : ℕ) : Turn :=
  ⟨p, f, t, TurnAction.PromotionKnight⟩

/-- Sentinel field ERR (= 64) meaning "no field". -/
def ERR : ℕ := 64

/-- Rank of a field (0-based).  Modelled from the spec: rank(f) = f / 8. -/
def rankFor (f : ℕ) : ℕ := f / 8

/-- File of a field (0-based).  Modelled from the spec: file(f) = f % 8. -/
def fileFor (f : ℕ) : ℕ := f % 8

/-- Rank enum constants (One = 0 ... Eight = 7). -/
def Rank.One : ℕ := 0

def Rank.Three : ℕ := 2

def Rank.Six : ℕ := 5

def Rank.Eight : ℕ := 7

/-- File enum constants (A = 0 ... H = 7). -/
def File.A : ℕ := 0

def File.B : ℕ := 1

def File.G : ℕ := 6

def File.H : ℕ := 7

/-- Named fields used by castling code. -/
def B1 : ℕ := 1

def C1 : ℕ := 2

def D1 : ℕ := 3

def E1 : ℕ := 4

def F1 : ℕ := 5

def G1 : ℕ := 6

def B8 : ℕ := 57

def C8 : ℕ := 58

def D8 : ℕ := 59

def E8 : ℕ := 60

def F8 : ℕ := 61

def G8 : ℕ := 62

/-- Bitboards are unsigned 64-bit integers, modelled as Nat kept below 2^64. -/
abbrev BitBoard := ℕ

/-- All 64 bits set, the value of ~0 on uint64_t. -/
def mask64 : BitBoard := 0xFFFFFFFFFFFFFFFF

/-- Left shift of a uint64_t: bits shifted beyond bit 63 are discarded. -/
def shl64 (bb : BitBoard) (n : ℕ) : BitBoard := (bb <<< n) &&& mask64

/-- Right shift of a uint64_t.  For shift amounts of 64 or more this
yields 0, which is what the claims about shift guarding are checked
against (C++ leaves such shifts undefined). -/
def shr64 (bb : BitBoard) (n : ℕ) : BitBoard := bb >>> n

/-- Complement of a uint64_t. -/
def compl64 (bb : BitBoard) : BitBoard := mask64 ^^^ bb

/-- Macro BIT_SET from ChessBoard.h. -/
def bitSet (bb : BitBoard) (field : ℕ) : BitBoard := bb ||| ((1 : ℕ) <<< field)

/-- Macro BIT_CLEAR from ChessBoard.h: bb &= ~(1 << field). -/
def bitClear (bb : BitBoard) (field : ℕ) : BitBoard :=
  bb &&& (mask64 ^^^ ((1 : ℕ) <<< field))

/-- Macro BIT_ISSET from ChessBoard.h, as a Bool. -/
def bitIsSet (bb : BitBoard) (field : ℕ) : Bool := bb.testBit field

/-- Helper for getFirstOccupiedField: index of the highest set bit below
the given fuel bound (0 when no bit is found). -/
def msbBelow : ℕ → BitBoard → ℕ
  | 0, _ => 0
  | i + 1, bb => if bb.testBit i then i else msbBelow i bb

/-- Scan for the most significant one bit, 63 - __builtin_clzll(bb) in
ChessBoard.h (the BB_SCAN macro).  Undefined in C++ for bb = 0; this
model returns 0 there. -/
def getFirstOccupiedField (bb : BitBoard) : ℕ := msbBelow 64 bb

/-- TurnGenerator.cpp: mask of a whole rank. -/
def maskRank (rank : ℕ) : BitBoard := shl64 0x00000000000000FF (rank * 8)

/-- TurnGenerator.cpp: complement of a rank mask. -/
def clearRank (rank : ℕ) : BitBoard := compl64 (maskRank rank)

/-- TurnGenerator.cpp: mask of a whole file. -/
def maskFile (file : ℕ) : BitBoard := shl64 0x0101010101010101 file

/-- TurnGenerator.cpp: complement of a file mask. -/
def clearFile (file : ℕ) : BitBoard := compl64 (maskFile file)

/-- Union of maskFile over all files i with lo <= i < hi, the effect of
the for loops building bbMask inside the diagonal getBits helpers. -/
def orMaskFiles (lo hi : ℕ) : BitBoard :=
  (List.range 8).foldl (fun acc i => if lo ≤ i ∧ i < hi then acc ||| maskFile i else acc) 0

/-- TurnGenerator::getBitsNE. -/
def getBitsNE (bbPiece : BitBoard) : BitBoard :=
  let field := getFirstOccupiedField bbPiece
  let bb := shl64 0x8040201008040200 field
  let bbMask := orMaskFiles (field % 8 + 1) 8
  bb &&& bbMask

/-- TurnGenerator::getBitsNW: int shift = field - 7, shifting left for
nonnegative shift and right by the absolute value otherwise. -/
def getBitsNW (bbPiece : BitBoard) : BitBoard :=
  let field := getFirstOccupiedField bbPiece
  let bb := if field < 7 then shr64 0x0102040810204000 (7 - field)
            else shl64 0x0102040810204000 (field - 7)
  let bbMask := orMaskFiles 0 (field % 8)
  bb &&& bbMask

/-- TurnGenerator::getBitsSE: int shift = 56 - field. -/
def getBitsSE (bbPiece : BitBoard) : BitBoard :=
  let field := getFirstOccupiedField bbPiece
  let bb := if 56 < field then shl64 0x0002040810204080 (field - 56)
            else shr64 0x0002040810204080 (56 - field)
  let bbMask := orMaskFiles (field % 8 + 1) 8
  bb &&& bbMask

/-- TurnGenerator::getBitsSW. -/
def getBitsSW (bbPiece : BitBoard) : BitBoard :=
  let field := getFirstOccupiedField bbPiece
  let bb := shr64 0x0040201008040201 (64 - (field + 1))
  let bbMask := orMaskFiles 0 (field % 8)
  bb &&& bbMask

/-- TurnGenerator::getBitsE: int shift = 56 - field, shifting right for
positive shift and left by the absolute value otherwise. -/
def getBitsE (bbPiece : BitBoard) : BitBoard :=
  let field := getFirstOccupiedField bbPiece
  let bb := if field < 56 then shr64 0xFE00000000000000 (56 - field)
            else shl64 0xFE00000000000000 (field - 56)
  bb &&& maskRank (field / 8)

/-- Shift amount used by TurnGenerator::getBitsW on a piece at the given
field: the source computes 0xFE00000000000000 >> (64 - field) with no
guard.  (This is the object of the shift-range safety claim.) -/
def getBitsW_shiftAmount (field : ℕ) : ℕ := 64 - field

/-- TurnGenerator::getBitsW.  The C++ right shift by 64 - field is
undefined behavior for field = 0; this model evaluates it as 0. -/
def getBitsW (bbPiece : BitBoard) : BitBoard :=
  let field := getFirstOccupiedField bbPiece
  let bb := shr64 0xFE00000000000000 (getBitsW_shiftAmount field)
  bb &&& maskRank (field / 8)

/-- Shift amount used by TurnGenerator::getBitsN. -/
def getBitsN_shiftAmount (field : ℕ) : ℕ := field

/-- TurnGenerator::getBitsN. -/
def getBitsN (bbPiece : BitBoard) : BitBoard :=
  let field := getFirstOccupiedField bbPiece
  shl64 0x0101010101010100 (getBitsN_shiftAmount field)

/-- Shift amount used by TurnGenerator::getBitsS. -/
def getBitsS_shiftAmount (field : ℕ) : ℕ := 64 - (field + 1)

/-- TurnGenerator::getBitsS. -/
def getBitsS (bbPiece : BitBoard) : BitBoard :=
  let field := getFirstOccupiedField bbPiece
  shr64 0x0080808080808080 (getBitsS_shiftAmount field)

/-- Shift amounts used by TurnGenerator::getBitsE (one of the two
branches is taken depending on the sign of 56 - field). -/
def getBitsE_shiftAmount (field : ℕ) : ℕ :=
  if field < 56 then 56 - field else field - 56

/-- TurnGenerator::calcRookTurns. -/
def calcRookTurns (rooks allOppPieces allPieces : BitBoard) : BitBoard :=
  let bbE := getBitsE rooks
  let bbW := getBitsW rooks
  let bbN := getBitsN rooks
  let bbS := getBitsS rooks
  let eastMoves0 := bbE &&& allPieces
  let eastMoves1 := shl64 eastMoves0 1 ||| shl64 eastMoves0 2 ||| shl64 eastMoves0 3 |||
                    shl64 eastMoves0 4 ||| shl64 eastMoves0 5 ||| shl64 eastMoves0 6 |||
                    shl64 eastMoves0 7
  let eastMoves := ((eastMoves1 &&& bbE) ^^^ bbE) &&& (allOppPieces ||| compl64 allPieces)
  let westMoves0 := bbW &&& allPieces
  let westMoves1 := shr64 westMoves0 1 ||| shr64 westMoves0 2 ||| shr64 westMoves0 3 |||
                    shr64 westMoves0 4 ||| shr64 westMoves0 5 ||| shr64 westMoves0 6 |||
                    shr64 westMoves0 7
  let westMoves := ((westMoves1 &&& bbW) ^^^ bbW) &&& (allOppPieces ||| compl64 allPieces)
  let northMoves0 := bbN &&& allPieces
  let northMoves1 := shl64 northMoves0 8 ||| shl64 northMoves0 16 ||| shl64 northMoves0 24 |||
                     shl64 northMoves0 32 ||| shl64 northMoves0 40 ||| shl64 northMoves0 48 |||
                     shl64 northMoves0 56
  let northMoves := ((northMoves1 &&& bbN) ^^^ bbN) &&& (allOppPieces ||| compl64 allPieces)
  let southMoves0 := bbS &&& allPieces
  let southMoves1 := shr64 southMoves0 8 ||| shr64 southMoves0 16 ||| shr64 southMoves0 24 |||
                     shr64 southMoves0 32 ||| shr64 southMoves0 40 ||| shr64 southMoves0 48 |||
                     shr64 southMoves0 56
  let southMoves := ((southMoves1 &&& bbS) ^^^ bbS) &&& (allOppPieces ||| compl64 allPieces)
  eastMoves ||| westMoves ||| northMoves ||| southMoves

/-- TurnGenerator::calcBishopTurns. -/
def calcBishopTurns (bishops allOppPieces allPieces : BitBoard) : BitBoard :=
  let bbNE := getBitsNE bishops
  let bbNW := getBitsNW bishops
  let bbSE := getBitsSE bishops
  let bbSW := getBitsSW bishops
  let neMoves0 := bbNE &&& allPieces
  let neMoves1 := shl64 neMoves0 9 ||| shl64 neMoves0 18 ||| shl64 neMoves0 27 |||
                  shl64 neMoves0 36 ||| shl64 neMoves0 45 ||| shl64 neMoves0 54
  let neMoves := ((neMoves1 &&& bbNE) ^^^ bbNE) &&& (allOppPieces ||| compl64 allPieces)
  let nwMoves0 := bbNW &&& allPieces
  let nwMoves1 := shl64 nwMoves0 7 ||| shl64 nwMoves0 14 ||| shl64 nwMoves0 21 |||
                  shl64 nwMoves0 28 ||| shl64 nwMoves0 35 ||| shl64 nwMoves0 42
  let nwMoves := ((nwMoves1 &&& bbNW) ^^^ bbNW) &&& (allOppPieces ||| compl64 allPieces)
  let seMoves0 := bbSE &&& allPieces
  let seMoves1 := shr64 seMoves0 7 ||| shr64 seMoves0 14 ||| shr64 seMoves0 21 |||
                  shr64 seMoves0 28 ||| shr64 seMoves0 35 ||| shr64 seMoves0 42
  let seMoves := ((seMoves1 &&& bbSE) ^^^ bbSE) &&& (allOppPieces ||| compl64 allPieces)
  let swMoves0 := bbSW &&& allPieces
  let swMoves1 := shr64 swMoves0 9 ||| shr64 swMoves0 18 ||| shr64 swMoves0 27 |||
                  shr64 swMoves0 36 ||| shr64 swMoves0 45 ||| shr64 swMoves0 54
  let swMoves := ((swMoves1 &&& bbSW) ^^^ bbSW) &&& (allOppPieces ||| compl64 allPieces)
  neMoves ||| nwMoves ||| seMoves ||| swMoves

/-- TurnGenerator::calcQueenTurns. -/
def calcQueenTurns (queens allOppPieces allPieces : BitBoard) : BitBoard :=
  calcRookTurns queens allOppPieces allPieces |||
  calcBishopTurns queens allOppPieces allPieces

/-- TurnGenerator::calcKingTurns. -/
def calcKingTurns (king allOwnPieces allOppTurns : BitBoard) : BitBoard :=
  let turn1 := shl64 (king &&& clearFile File.H) 9
  let turn2 := shl64 king 8
  let turn3 := shl64 (king &&& clearFile File.A) 7
  let turn4 := shl64 (king &&& clearFile File.H) 1
  let turn5 := shr64 (king &&& clearFile File.A) 1
  let turn6 := shr64 (king &&& clearFile File.H) 7
  let turn7 := shr64 king 8
  let turn8 := shr64 (king &&& clearFile File.A) 9
  let kingTurns0 := (turn1 ||| turn2 ||| turn3 ||| turn4 |||
                     turn5 ||| turn6 ||| turn7 ||| turn8) &&& compl64 allOwnPieces
  kingTurns0 ^^^ (allOppTurns &&& kingTurns0)

/-- TurnGenerator::calcKnightTurns. -/
def calcKnightTurns (knights allOwnPieces : BitBoard) : BitBoard :=
  let turn1 := shl64 (knights &&& (clearFile File.A &&& clearFile File.B)) 6
  let turn2 := shl64 (knights &&& clearFile File.A) 15
  let turn3 := shl64 (knights &&& clearFile File.H) 17
  let turn4 := shl64 (knights &&& (clearFile File.H &&& clearFile File.G)) 10
  let turn5 := shr64 (knights &&& (clearFile File.H &&& clearFile File.G)) 6
  let turn6 := shr64 (knights &&& clearFile File.H) 15
  let turn7 := shr64 (knights &&& clearFile File.A) 17
  let turn8 := shr64 (knights &&& (clearFile File.A &&& clearFile File.B)) 10
  (turn1 ||| turn2 ||| turn3 ||| turn4 ||| turn5 ||| turn6 ||| turn7 ||| turn8) &&&
    compl64 allOwnPieces

/-- TurnGenerator::calcPawnMoveTurns. -/
def calcPawnMoveTurns (pawns allPieces : BitBoard) (player : PlayerColor) : BitBoard :=
  let oneStep := match player with
    | White => shl64 pawns 8 &&& compl64 allPieces
    | Black => shr64 pawns 8 &&& compl64 allPieces
    | NoPlayer => 0
  let twoSteps := match player with
    | White => shl64 (oneStep &&& maskRank Rank.Three) 8 &&& compl64 allPieces
    | Black => shr64 (oneStep &&& maskRank Rank.Six) 8 &&& compl64 allPieces
    | NoPlayer => 0
  oneStep ||| twoSteps

/-- TurnGenerator::calcPawnAttackTurns. -/
def calcPawnAttackTurns (pawns allOppPieces : BitBoard) (player : PlayerColor)
    (enPassantSquare : ℕ) : BitBoard :=
  let leftAttacks := match player with
    | White => shl64 (pawns &&& clearFile File.A) 7
    | Black => shr64 (pawns &&& clearFile File.A) 9
    | NoPlayer => 0
  let rightAttacks := match player with
    | White => shl64 (pawns &&& clearFile File.H) 9
    | Black => shr64 (pawns &&& clearFile File.H) 7
    | NoPlayer => 0
  let allOppPieces1 := if enPassantSquare ≠ ERR then bitSet allOppPieces enPassantSquare
                       else allOppPieces
  (leftAttacks ||| rightAttacks) &&& allOppPieces1

/-- TurnGenerator::calcPawnTurns. -/
def calcPawnTurns (pawns allOppPieces allPieces : BitBoard) (player : PlayerColor)
    (enPassantSquare : ℕ) : BitBoard :=
  calcPawnMoveTurns pawns allPieces player |||
  calcPawnAttackTurns pawns allOppPieces player enPassantSquare

/-- The ChessBoard state visible to the turn generator: the twelve piece
bitboards plus the AllPieces unions, the castle rights, the en passant
square and the flags the generator writes back. -/
structure ChessBoard where
  m_bb : PlayerColor → PieceType → BitBoard
  m_shortCastleRight : PlayerColor → Bool
  m_longCastleRight : PlayerColor → Bool
  m_enPassantSquare : ℕ
  m_kingInCheck : PlayerColor → Bool
  m_checkmate : PlayerColor → Bool
  m_stalemate : Bool

/-- ChessBoard::setKingInCheck. -/
def ChessBoard.setKingInCheck (cb : ChessBoard) (player : PlayerColor) (b : Bool) :
    ChessBoard :=
  { cb with m_kingInCheck := fun p => if p = player then b else cb.m_kingInCheck p }

/-- ChessBoard::setCheckmate. -/
def ChessBoard.setCheckmate (cb : ChessBoard) (player : PlayerColor) (b : Bool) :
    ChessBoard :=
  { cb with m_checkmate := fun p => if p = player then b else cb.m_checkmate p }

/-- ChessBoard::setStalemate. -/
def ChessBoard.setStalemate (cb : ChessBoard) (b : Bool) : ChessBoard :=
  { cb with m_stalemate := b }

/-- The variadic generateBitBoard helper applied to three fields and the
ERR terminator, the only shape used by the castling calculations.  Its
implementation file is not among the sources; modelled from its use: the
bitboard with the three given bits set. -/
def generateBitBoard3 (f1 f2 f3 : ℕ) : BitBoard :=
  bitSet (bitSet (bitSet 0 f1) f2) f3

/-- TurnGenerator::calcShortCastleTurns. -/
def calcShortCastleTurns (player : PlayerColor) (bbAllPieces bbAllOppTurns : BitBoard) :
    BitBoard :=
  if player = White then
    if (bbAllOppTurns &&& generateBitBoard3 E1 F1 G1) = 0 ∧
        ¬ bitIsSet bbAllPieces G1 ∧ ¬ bitIsSet bbAllPieces F1 then
      bitSet 0 G1
    else 0
  else
    if (bbAllOppTurns &&& generateBitBoard3 E8 F8 G8) = 0 ∧
        ¬ bitIsSet bbAllPieces G8 ∧ ¬ bitIsSet bbAllPieces F8 then
      bitSet 0 G8
    else 0

/-- TurnGenerator::calcLongCastleTurns. -/
def calcLongCastleTurns (player : PlayerColor) (bbAllPieces bbAllOppTurns : BitBoard) :
    BitBoard :=
  if player = White then
    if (bbAllOppTurns &&& generateBitBoard3 E1 D1 C1) = 0 ∧
        ¬ bitIsSet bbAllPieces D1 ∧ ¬ bitIsSet bbAllPieces C1 ∧
        ¬ bitIsSet bbAllPieces B1 then
      bitSet 0 C1
    else 0
  else
    if (bbAllOppTurns &&& generateBitBoard3 E8 D8 C8) = 0 ∧
        ¬ bitIsSet bbAllPieces D8 ∧ ¬ bitIsSet bbAllPieces C8 ∧
        ¬ bitIsSet bbAllPieces B8 then
      bitSet 0 C8
    else 0

/-- TurnGenerator::calcMoveTurns: dispatch on the piece type. -/
def calcMoveTurns (piece : Piece) (bbPiece bbAllOppTurns : BitBoard)
    (cb : ChessBoard) : BitBoard :=
  let opp := if piece.player = White then Black else White
  match piece.type with
  | King => calcKingTurns bbPiece (cb.m_bb piece.player AllPieces) bbAllOppTurns
  | Queen => calcQueenTurns bbPiece (cb.m_bb opp AllPieces)
      (cb.m_bb piece.player AllPieces ||| cb.m_bb opp AllPieces)
  | Bishop => calcBishopTurns bbPiece (cb.m_bb opp AllPieces)
      (cb.m_bb piece.player AllPieces ||| cb.m_bb opp AllPieces)
  | Knight => calcKnightTurns bbPiece (cb.m_bb piece.player AllPieces)
  | Rook => calcRookTurns bbPiece (cb.m_bb opp AllPieces)
      (cb.m_bb piece.player AllPieces ||| cb.m_bb opp AllPieces)
  | Pawn => calcPawnTurns bbPiece (cb.m_bb opp AllPieces)
      (cb.m_bb piece.player AllPieces ||| cb.m_bb opp AllPieces)
      piece.player cb.m_enPassantSquare
  | _ => 0

/-- The order in which generateTurns and its helpers iterate piece types. -/
def pieceTypeOrder : List PieceType := [King, Queen, Bishop, Knight, Rook, Pawn]

/-- Inner while loop of TurnGenerator::calcAllOppTurns for sliding
pieces: per piece, the rook, queen or bishop turns with the enemy king
removed from the blocker boards.  The fuel bounds the loop; 64 suffices
for any 64-bit bitboard. -/
def sliderOppLoop : ℕ → PieceType → BitBoard → BitBoard → BitBoard → BitBoard
  | 0, _, _, _, _ => 0
  | fuel + 1, pt, bb, bbOppWK, bbAllWK =>
    if bb = 0 then 0
    else
      let curPiecePos := getFirstOccupiedField bb
      let bbRest := bitClear bb curPiecePos
      let bbCurPiece := bitSet 0 curPiecePos
      let t :=
        if pt = Rook then calcRookTurns bbCurPiece bbOppWK bbAllWK
        else if pt = Queen then calcQueenTurns bbCurPiece bbOppWK bbAllWK
        else if pt = Bishop then calcBishopTurns bbCurPiece bbOppWK bbAllWK
        else 0
      t ||| sliderOppLoop fuel pt bbRest bbOppWK bbAllWK

/-- TurnGenerator::calcAllOppTurns: all fields the opponent attacks,
with pawn attack squares always included, sliding pieces seeing through
the friendly king, and castle destination squares included when the
right is held. -/
def calcAllOppTurns (opp : PlayerColor) (cb : ChessBoard) : BitBoard :=
  let player := togglePlayerColor opp
  let bbAllPieces := cb.m_bb White AllPieces ||| cb.m_bb Black AllPieces
  let bbAllOppPiecesWhitoutKing := cb.m_bb player AllPieces ^^^ cb.m_bb player King
  let bbAllPiecesWhitoutKing := bbAllPieces ^^^ cb.m_bb player King
  let castleTurns :=
    (if cb.m_shortCastleRight opp then calcShortCastleTurns opp bbAllPieces 0 else 0) |||
    (if cb.m_longCastleRight opp then calcLongCastleTurns opp bbAllPieces 0 else 0)
  pieceTypeOrder.foldl (fun acc pt =>
    acc |||
      (if pt = Pawn then
        calcPawnAttackTurns (cb.m_bb opp Pawn) mask64 opp cb.m_enPassantSquare
      else if pt = King then
        calcKingTurns (cb.m_bb opp King) 0 0
      else if pt = Knight then
        calcKnightTurns (cb.m_bb opp Knight) 0
      else
        sliderOppLoop 64 pt (cb.m_bb opp pt) bbAllOppPiecesWhitoutKing
          bbAllPiecesWhitoutKing)) castleTurns

/-- The for loop inside the sliding-piece branch of calcUnCheckFields:
for i in 1..dist set the bit at (pieceRank + i*rankSign)*8 +
(pieceFile + i*fileSign).  The arithmetic is C++ int arithmetic, hence
Int here; toNat is safe on the in-range inputs the function is called
with.  The fuel bounds the loop (dist is at most 6). -/
def unCheckPathLoop : ℕ → ℕ → Int → Int → Int → Int → Int → BitBoard
  | 0, _, _, _, _, _, _ => 0
  | fuel + 1, i, dist, pieceRank, pieceFile, rankSign, fileSign =>
    if (i : Int) ≤ dist then
      bitSet (unCheckPathLoop fuel (i + 1) dist pieceRank pieceFile rankSign fileSign)
        ((pieceRank + i * rankSign) * 8 + (pieceFile + i * fileSign)).toNat
    else 0

/-- The sliding-piece branch of TurnGenerator::calcUnCheckFields: the
direction classification by rank and file comparison and the path walk
from the checking piece toward the king (excluding both endpoints). -/
def unCheckPath (kingPos curPiecePos : ℕ) : BitBoard :=
  let kingRank : Int := rankFor kingPos
  let kingFile : Int := fileFor kingPos
  let pieceRank : Int := rankFor curPiecePos
  let pieceFile : Int := fileFor curPiecePos
  let dist : Int :=
    if kingRank < pieceRank then pieceRank - kingRank - 1
    else if kingRank = pieceRank then
      (if kingFile < pieceFile then pieceFile - kingFile - 1
       else if pieceFile < kingFile then kingFile - pieceFile - 1
       else -10)
    else kingRank - pieceRank - 1
  let rankSign : Int :=
    if kingRank < pieceRank then -1
    else if kingRank = pieceRank then 0
    else 1
  let fileSign : Int :=
    if kingFile < pieceFile then -1
    else if kingFile = pieceFile then 0
    else 1
  unCheckPathLoop 8 1 dist pieceRank pieceFile rankSign fileSign

/-- Inner while loop of TurnGenerator::calcUnCheckFields: scan the
pieces of one enemy type, most significant bit first, and stop at the
first piece whose move bitboard covers the king. -/
def unCheckInner (cb : ChessBoard) (player : PlayerColor) (piece : Piece) :
    ℕ → BitBoard → Option BitBoard
  | 0, _ => none
  | fuel + 1, bb =>
    if bb = 0 then none
    else
      let curPiecePos := getFirstOccupiedField bb
      let bbRest := bitClear bb curPiecePos
      let bbCurPiece := bitSet 0 curPiecePos
      let bbTurns := calcMoveTurns piece bbCurPiece 0 cb
      let bbKingInCheck := cb.m_bb player King &&& bbTurns
      if bbKingInCheck = cb.m_bb player King then
        if piece.type = Pawn ∨ piece.type = Knight ∨ piece.type = King then
          some (bitSet 0 curPiecePos)
        else
          let kingPos := if cb.m_bb player King ≠ 0 then
              getFirstOccupiedField (cb.m_bb player King)
            else ERR
          some (bitSet (unCheckPath kingPos curPiecePos) curPiecePos)
      else unCheckInner cb player piece fuel bbRest

/-- Outer for loop of TurnGenerator::calcUnCheckFields over piece types. -/
def unCheckOuter (cb : ChessBoard) (player opp : PlayerColor) :
    List PieceType → Option BitBoard
  | [] => none
  | t :: ts =>
    match unCheckInner cb player ⟨opp, t⟩ 64 (cb.m_bb opp t) with
    | some r => some r
    | none => unCheckOuter cb player opp ts

/-- TurnGenerator::calcUnCheckFields: the fields to which an own piece
must move to lift the check (capture the first checker found; for a
sliding checker also any square on its path to the king). -/
def calcUnCheckFields (opp : PlayerColor) (cb : ChessBoard) : BitBoard :=
  let player := togglePlayerColor opp
  (unCheckOuter cb player opp pieceTypeOrder).getD 0

/-- TurnGenerator::bitBoardToTurns: expand a target bitboard into Turn
records, most significant bit first, expanding pawn moves to the first
or eighth rank into the four promotion turns. -/
def bitBoardToTurns (piece : Piece) (fromSq : ℕ) : ℕ → BitBoard → List Turn
  | 0, _ => []
  | fuel + 1, bbTurns =>
    if bbTurns = 0 then []
    else
      let toField := getFirstOccupiedField bbTurns
      let bbRest := bitClear bbTurns toField
      (if (rankFor toField = Rank.Eight ∨ rankFor toField = Rank.One) ∧ piece.type = Pawn then
        [Turn.promotionQueen piece fromSq toField, Turn.promotionBishop piece fromSq toField,
         Turn.promotionRook piece fromSq toField, Turn.promotionKnight piece fromSq toField]
      else
        [Turn.move piece fromSq toField]) ++ bitBoardToTurns piece fromSq fuel bbRest

/-- Inner while loop of the in-check branch of generateTurns: per piece
of a type, the move bitboard is intersected with bbUnCheckFields unless
the piece is the king. -/
def genPiecesInCheck (piece : Piece) (cb : ChessBoard)
    (bbAllOppTurns bbUnCheckFields : BitBoard) : ℕ → BitBoard → List Turn
  | 0, _ => []
  | fuel + 1, bb =>
    if bb = 0 then []
    else
      let curPiecePos := getFirstOccupiedField bb
      let bbRest := bitClear bb curPiecePos
      let bbCurPiece := bitSet 0 curPiecePos
      let bbTurns0 := calcMoveTurns piece bbCurPiece bbAllOppTurns cb
      let bbTurns := if piece.type ≠ King then bbTurns0 &&& bbUnCheckFields else bbTurns0
      bitBoardToTurns piece curPiecePos 64 bbTurns ++
        genPiecesInCheck piece cb bbAllOppTurns bbUnCheckFields fuel bbRest

/-- Outer for loop of the in-check branch of generateTurns. -/
def genTypesInCheck (player : PlayerColor) (cb : ChessBoard)
    (bbAllOppTurns bbUnCheckFields : BitBoard) : List PieceType → List Turn
  | [] => []
  | t :: ts =>
    genPiecesInCheck ⟨player, t⟩ cb bbAllOppTurns bbUnCheckFields 64 (cb.m_bb player t) ++
      genTypesInCheck player cb bbAllOppTurns bbUnCheckFields ts

/-- Inner while loop of the normal branch of generateTurns. -/
def genPiecesNormal (piece : Piece) (cb : ChessBoard) (bbAllOppTurns : BitBoard) :
    ℕ → BitBoard → List Turn
  | 0, _ => []
  | fuel + 1, bb =>
    if bb = 0 then []
    else
      let curPiecePos := getFirstOccupiedField bb
      let bbRest := bitClear bb curPiecePos
      let bbCurPiece := bitSet 0 curPiecePos
      let bbTurns := calcMoveTurns piece bbCurPiece bbAllOppTurns cb
      bitBoardToTurns piece curPiecePos 64 bbTurns ++
        genPiecesNormal piece cb bbAllOppTurns fuel bbRest

/-- Outer for loop of the normal branch of generateTurns. -/
def genTypesNormal (player : PlayerColor) (cb : ChessBoard) (bbAllOppTurns : BitBoard) :
    List PieceType → List Turn
  | [] => []
  | t :: ts =>
    genPiecesNormal ⟨player, t⟩ cb bbAllOppTurns 64 (cb.m_bb player t) ++
      genTypesNormal player cb bbAllOppTurns ts

/-- TurnGenerator::generateTurns: returns the generated turn list
together with the board carrying the updated kingInCheck, checkmate and
stalemate flags. -/
def generateTurns (player : PlayerColor) (cb : ChessBoard) : List Turn × ChessBoard :=
  let opp := togglePlayerColor player
  let bbAllPieces := cb.m_bb White AllPieces ||| cb.m_bb Black AllPieces
  let bbAllOppTurns := calcAllOppTurns opp cb
  let bbKingInCheck := cb.m_bb player King &&& bbAllOppTurns
  let cb1 := cb.setKingInCheck opp false
  if bbKingInCheck = cb.m_bb player King then
    let cb2 := cb1.setKingInCheck player true
    let bbUnCheckFields := calcUnCheckFields opp cb2
    let turnList := genTypesInCheck player cb2 bbAllOppTurns bbUnCheckFields pieceTypeOrder
    let cb3 := if turnList.isEmpty then cb2.setCheckmate player true else cb2
    (turnList, cb3)
  else
    let cb2 := cb1.setKingInCheck player false
    let shortCastle :=
      if cb2.m_shortCastleRight player then
        if calcShortCastleTurns player bbAllPieces bbAllOppTurns ≠ 0 then
          if player = White then [Turn.castle ⟨White, King⟩ E1 G1]
          else [Turn.castle ⟨Black, King⟩ E8 G8]
        else []
      else []
    let longCastle :=
      if cb2.m_longCastleRight player then
        if calcLongCastleTurns player bbAllPieces bbAllOppTurns ≠ 0 then
          if player = White then [Turn.castle ⟨White, King⟩ E1 C1]
          else [Turn.castle ⟨Black, King⟩ E8 C8]
        else []
      else []
    let turnList := shortCastle ++ longCastle ++
      genTypesNormal player cb2 bbAllOppTurns pieceTypeOrder
    let cb3 := if turnList.isEmpty then cb2.setStalemate true else cb2
    (turnList, cb3)

/-- The standard chess starting position as seen by the turn generator:
the twelve piece bitboards of the opening FEN, full castle rights, no en
passant square and no flags set. -/
def startBoard : ChessBoard where
  m_bb := fun p t =>
    match p, t with
    | White, King => bitSet 0 4
    | White, Queen => bitSet 0 3
    | White, Bishop => bitSet (bitSet 0 2) 5
    | White, Knight => bitSet (bitSet 0 1) 6
    | White, Rook => bitSet (bitSet 0 0) 7
    | White, Pawn => 0xFF00
    | White, AllPieces => 0xFFFF
    | Black, King => bitSet 0 60
    | Black, Queen => bitSet 0 59
    | Black, Bishop => bitSet (bitSet 0 58) 61
    | Black, Knight => bitSet (bitSet 0 57) 62
    | Black, Rook => bitSet (bitSet 0 56) 63
    | Black, Pawn => 0x00FF000000000000
    | Black, AllPieces => 0xFFFF000000000000
    | _, _ => 0
  m_shortCastleRight := fun _ => true
  m_longCastleRight := fun _ => true
  m_enPassantSquare := ERR
  m_kingInCheck := fun _ => false
  m_checkmate := fun _ => false
  m_stalemate := false

/-- The twenty turns the spec expects from the starting position: the
sixteen white pawn single and double pushes and the four white knight
moves. -/
def startExpectedTurns : List Turn :=
  (List.range 8).map (fun i => Turn.move ⟨White, Pawn⟩ (8 + i) (16 + i)) ++
  (List.range 8).map (fun i => Turn.move ⟨White, Pawn⟩ (8 + i) (24 + i)) ++
  [Turn.move ⟨White, Knight⟩ 1 16, Turn.move ⟨White, Knight⟩ 1 18,
   Turn.move ⟨White, Knight⟩ 6 21, Turn.move ⟨White, Knight⟩ 6 23]

/-- The piece square table of IncrementalMaterialAndPSTEvaluator.cpp,
indexable by piece type and then field from blacks point of view. -/
def PIECE_SQUARE_TABLE (t : PieceType) : List Int :=
  match t with
  | King =>
    [-30, -40, -40, -50, -50, -40, -40, -30,
     -30, -40, -40, -50, -50, -40, -40, -30,
     -30, -40, -40, -50, -50, -40, -40, -30,
     -30, -40, -40, -50, -50, -40, -40, -30,
     -20, -30, -30, -40, -40, -30, -30, -20,
     -10, -20, -20, -20, -20, -20, -20, -10,
     20, 20, 0, 0, 0, 0, 20, 20,
     20, 30, 10, 0, 0, 10, 30, 20]
  | Queen =>
    [-20, -10, -10, -5, -5, -10, -10, -20,
     -10, 0, 0, 0, 0, 0, 0, -10,
     -10, 0, 5, 5, 5, 5, 0, -10,
     -5, 0, 5, 5, 5, 5, 0, -5,
     0, 0, 5, 5, 5, 5, 0, -5,
     -10, 5, 5, 5, 5, 5, 0, -10,
     -10, 0, 5, 0, 0, 0, 0, -10,
     -20, -10, -10, -5, -5, -10, -10, -20]
  | Bishop =>
    [-20, -10, -10, -10, -10, -10, -10, -20,
     -10, 0, 0, 0, 0, 0, 0, -10,
     -10, 0, 5, 10, 10, 5, 0, -10,
     -10, 5, 5, 10, 10, 5, 5, -10,
     -10, 0, 10, 10, 10, 10, 0, -10,
     -10, 10, 10, 10, 10, 10, 10, -10,
     -10, 5, 0, 0, 0, 0, 5, -10,
     -20, -10, -10, -10, -10, -10, -10, -20]
  | Knight =>
    [-50, -40, -30, -30, -30, -30, -40, -50,
     -40, -20, 0, 0, 0, 0, -20, -40,
     -30, 0, 10, 15, 15, 10, 0, -30,
     -30, 5, 15, 20, 20, 15, 5, -30,
     -30, 0, 15, 20, 20, 15, 0, -30,
     -30, 5, 10, 15, 15, 10, 5, -30,
     -40, -20, 0, 5, 5, 0, -20, -40,
     -50, -40, -30, -30, -30, -30, -40, -50]
  | Rook =>
    [0, 0, 0, 0, 0, 0, 0, 0,
     5, 10, 10, 10, 10, 10, 10, 5,
     -5, 0, 0, 0, 0, 0, 0, -5,
     -5, 0, 0, 0, 0, 0, 0, -5,
     -5, 0, 0, 0, 0, 0, 0, -5,
     -5, 0, 0, 0, 0, 0, 0, -5,
     -5, 0, 0, 0, 0, 0, 0, -5,
     0, 0, 0, 5, 5, 0, 0, 0]
  | Pawn =>
    [0, 0, 0, 0, 0, 0, 0, 0,
     50, 50, 50, 50, 50, 50, 50, 50,
     10, 10, 20, 30, 30, 20, 10, 10,
     5, 5, 10, 25, 25, 10, 5, 5,
     0, 0, 0, 20, 20, 0, 0, 0,
     5, -5, -10, 0, 0, -10, -5, 5,
     5, 10, 10, -20, -20, 10, 10, 5,
     0, 0, 0, 0, 0, 0, 0, 0]
  | _ => []

/-- Lookup in the piece square table at a field. -/
def pstAt (t : PieceType) (field : ℕ) : Int := (PIECE_SQUARE_TABLE t).getD field 0

/-- The piece values of IncrementalMaterialAndPSTEvaluator.cpp. -/
def PIECE_VALUES : PieceType → Int
  | King => 20000
  | Queen => 900
  | Bishop => 330
  | Knight => 320
  | Rook => 500
  | Pawn => 100
  | _ => 0

/-- Square with the rank mirrored across the board midline, used to
index white pieces into the black-oriented piece square table.
Modelled from the spec: flipHorizontal swaps ranks (the header defining
it is not among the sources). -/
def flipHorizontal (field : ℕ) : ℕ := (7 - rankFor field) * 8 + fileFor field

/-- Loop body of IncrementalMaterialAndPSTEvaluator::estimateFullBoard:
the white-relative contribution of the piece sitting on a position
(zero for the empty-square sentinel, whose type is above Pawn). -/
def pieceContribution (position : Fin 64) (piece : Piece) : Int :=
  if pieceTypeIdx piece.type ≤ pieceTypeIdx Pawn then
    let psqPosition := if piece.player = Black then position.val
                       else flipHorizontal position.val
    let pieceSquareScore := pstAt piece.type psqPosition
    let pieceOverallScore := PIECE_VALUES piece.type + pieceSquareScore
    if piece.player = White then pieceOverallScore else -pieceOverallScore
  else 0

/-- IncrementalMaterialAndPSTEvaluator::estimateFullBoard: the score of
a 64-square board array recomputed from scratch, white-relative. -/
def estimateFullBoard (board : Fin 64 → Piece) : Int :=
  ∑ position : Fin 64, pieceContribution position (board position)

/-- IncrementalMaterialAndPSTEvaluator::moveIncrement applied to the
running estimated score: only the piece-square part changes on a move. -/
def moveIncrement (turn : Turn) (m_estimatedScore : Int) : Int :=
  if turn.piece.player = Black then
    m_estimatedScore + pstAt turn.piece.type turn.fromSq - pstAt turn.piece.type turn.toSq
  else
    m_estimatedScore - pstAt turn.piece.type (flipHorizontal turn.fromSq)
      + pstAt turn.piece.type (flipHorizontal turn.toSq)

/-- IncrementalMaterialAndPSTEvaluator::captureIncrement applied to the
running estimated score: material and piece-square parts of the victim. -/
def captureIncrement (field : ℕ) (piece : Piece) (m_estimatedScore : Int) : Int :=
  if piece.player = Black then
    m_estimatedScore + pstAt piece.type field + PIECE_VALUES piece.type
  else
    m_estimatedScore - pstAt piece.type (flipHorizontal field) - PIECE_VALUES piece.type

/-- IncrementalMaterialAndPSTEvaluator::promotionIncrement applied to
the running estimated score. -/
def promotionIncrement (turn : Turn) (targetType : PieceType) (m_estimatedScore : Int) : Int :=
  if turn.piece.player = Black then
    m_estimatedScore + pstAt Pawn turn.toSq + PIECE_VALUES Pawn
      - pstAt targetType turn.toSq - PIECE_VALUES targetType
  else
    let blackPromSquare := flipHorizontal turn.toSq
    m_estimatedScore - pstAt Pawn blackPromSquare - PIECE_VALUES Pawn
      + pstAt targetType blackPromSquare + PIECE_VALUES targetType

/-- IncrementalMaterialAndPSTEvaluator::getScore. -/
def evaluatorGetScore (color : PlayerColor) (m_estimatedScore : Int) : Int :=
  if color = White then m_estimatedScore else -m_estimatedScore

/-- The empty-square sentinel Piece(NoPlayer, NoType). -/
def emptySquare : Piece := ⟨NoPlayer, NoType⟩

/-- Bound kinds of a transposition table entry.
Modelled from the spec: boundKind is Exact, LowerBound or UpperBound
(TranspositionTable.h is not among the sources). -/
inductive BoundType where
  | EXACT
  | LOWER
  | UPPER
deriving DecidableEq, Repr

/-- A transposition table entry: hash, best move, score, depth searched
below the node, and bound kind.
Modelled from the spec: each slot stores hash, bestMove, score, depth
and boundKind. -/
structure TranspositionTableEntry (M : Type) where
  hash : ℕ
  turn : Option M
  score : Int
  depth : ℕ
  boundType : BoundType
deriving DecidableEq, Repr

/-- TranspositionTableEntry::isExactBound. -/
def TranspositionTableEntry.isExactBound (e : TranspositionTableEntry M) : Bool :=
  e.boundType = BoundType.EXACT

/-- TranspositionTableEntry::isLowerBound. -/
def TranspositionTableEntry.isLowerBound (e : TranspositionTableEntry M) : Bool :=
  e.boundType = BoundType.LOWER

/-- TranspositionTableEntry::isUpperBound. -/
def TranspositionTableEntry.isUpperBound (e : TranspositionTableEntry M) : Bool :=
  e.boundType = BoundType.UPPER

/-- The transposition table.
Modelled from the spec: a fixed-size direct-mapped table; slot index is
hash modulo size. -/
structure TranspositionTable (M : Type) where
  size : ℕ
  slots : ℕ → Option (TranspositionTableEntry M)

/-- TranspositionTable::lookup.
Modelled from the spec: reads slot hash mod size and returns the entry
only if the stored hash equals the queried hash. -/
def TranspositionTable.lookup (tbl : TranspositionTable M) (h : ℕ) :
    Option (TranspositionTableEntry M) :=
  match tbl.slots (h % tbl.size) with
  | none => none
  | some e => if e.hash = h then some e else none

/-- TranspositionTable::maybeUpdate.
Modelled from the spec: the replacement policy is always replace. -/
def TranspositionTable.maybeUpdate (tbl : TranspositionTable M)
    (e : TranspositionTableEntry M) : TranspositionTable M :=
  { tbl with slots := fun i => if i = e.hash % tbl.size then some e else tbl.slots i }

/-- A transposition table with no entries. -/
def emptyTable (M : Type) (size : ℕ) : TranspositionTable M :=
  ⟨size, fun _ => none⟩

/-- The game state interface the Negamax template consumes (Negamax.h is
generic over TGameState precisely so that game states are mockable).
getScore takes the depth argument Negamax passes to it. -/
structure GameSpec (S M : Type) where
  getTurnList : S → List M
  applyTurn : S → M → S
  isGameOver : S → Bool
  getScore : S → ℕ → Int
  getHash : S → ℕ

/-- NegamaxResult from Negamax.h: a score and an optional turn. -/
structure NegamaxResult (M : Type) where
  score : Int
  turn : Option M
deriving DecidableEq, Repr

/-- The helper class Option of Negamax.h used for move ordering: the
state after the turn, the turn, and the score estimation. -/
structure MoveOption (S M : Type) where
  state : S
  turn : M
  score : Int

/-- Negamax::estimateScoreFor: the move-ordering estimate for a child
state, negated because the child is from the opponents point of view.
MAXS is the (spec-modelled) MAX_SCORE constant of helper.h, and the
MIN_SCORE constant is its negation. -/
def estimateScoreFor (g : GameSpec S M) (TTEN : Bool) (MAXS : Int)
    (tbl : TranspositionTable M) (s : S) (depth : ℕ) : Int :=
  let MIN_SCORE := -MAXS
  if TTEN then
    match tbl.lookup (g.getHash s) with
    | none => -(g.getScore s depth)
    | some e => if e.isUpperBound then -MIN_SCORE else -e.score
  else -(g.getScore s depth)

/-- The transposition-table probe block at the top of
Negamax::search_recurse, as a function of the lookup result: an exact
entry deep enough is returned directly; a lower bound raises alpha, an
upper bound lowers beta; if the adjusted window is empty and alpha-beta
is enabled the entry is returned as a cutoff.  Yields the optional
early-return result and the adjusted alpha and beta. -/
def ttProbe (AB : Bool) (pliesLeft : ℕ) (alpha beta : Int)
    (l : Option (TranspositionTableEntry M)) :
    Option (NegamaxResult M) × Int × Int :=
  match l with
  | some e =>
    if pliesLeft ≤ e.depth then
      if e.isExactBound then (some (⟨e.score, e.turn⟩ : NegamaxResult M), alpha, beta)
      else if e.isLowerBound then
        let alphaL := max alpha e.score
        if AB ∧ beta ≤ alphaL then (some ⟨e.score, e.turn⟩, alphaL, beta)
        else (none, alphaL, beta)
      else
        let betaU := min beta e.score
        if AB ∧ betaU ≤ alpha then (some ⟨e.score, e.turn⟩, alpha, betaU)
        else (none, alpha, betaU)
    else (none, alpha, beta)
  | none => (none, alpha, beta)

/-- Outcome of the candidate loop in search_recurse: either an early
return out of the whole function (the abort sentinel), or the loop
finished or was cut off with a best result (after which the function
still stores to the transposition table). -/
inductive NegamaxLoopOut (M : Type) where
  | ret (r : NegamaxResult M)
  | done (best : NegamaxResult M)

/-- The candidate loop of Negamax::search_recurse over the (possibly
sorted) options: recurse negated on each child, update the best result
on strict improvement and tag it with the candidate turn, raise alpha,
break on alpha >= beta when alpha-beta is enabled, and return the abort
sentinel when the abort flag is observed set after a child returns.
The abort flag is modelled by obs, giving the value read by each
successive observation; cnt numbers the observations. -/
def negamaxLoop (g : GameSpec S M) (AB : Bool) (obs : ℕ → Bool)
    (rec : S → Int → Int → TranspositionTable M → ℕ →
      NegamaxResult M × TranspositionTable M × ℕ) :
    List (MoveOption S M) → NegamaxResult M → Int → Int → TranspositionTable M → ℕ →
      NegamaxLoopOut M × TranspositionTable M × ℕ
  | [], best, _, _, tbl, cnt => (NegamaxLoopOut.done best, tbl, cnt)
  | o :: rest, best, alpha, beta, tbl, cnt =>
    let r0 := rec o.state (-beta) (-alpha) tbl cnt
    let result : NegamaxResult M := ⟨-r0.1.score, r0.1.turn⟩
    let tbl1 := r0.2.1
    let cnt1 := r0.2.2
    let best1 := if best.score < result.score then ⟨result.score, some o.turn⟩ else best
    let alpha1 := max alpha result.score
    if AB ∧ beta ≤ alpha1 then (NegamaxLoopOut.done best1, tbl1, cnt1)
    else if obs cnt1 then (NegamaxLoopOut.ret ⟨0, none⟩, tbl1, cnt1 + 1)
    else negamaxLoop g AB obs rec rest best1 alpha1 beta tbl1 (cnt1 + 1)

/-- Negamax::search_recurse.  plies is maxDepth - depth, the number of
plies left (the C++ recursion carries depth and maxDepth; this carries
depth and the difference, and recursion is on the difference).  The
three Bool toggles are the template parameters AB_CUTOFF_ENABLED,
MOVE_ORDERING_ENABLED and TRANSPOSITION_TABLES_ENABLED.  The result is
the NegamaxResult together with the transposition table and the
observation counter after the call. -/
def search_recurse (g : GameSpec S M) (AB MO TTEN : Bool) (MAXS : Int) (obs : ℕ → Bool) :
    ℕ → S → ℕ → Int → Int → TranspositionTable M → ℕ →
      NegamaxResult M × TranspositionTable M × ℕ
  | 0, s, depth, _, _, tbl, cnt =>
    if obs cnt then (⟨0, none⟩, tbl, cnt + 1)
    else (⟨g.getScore s depth, none⟩, tbl, cnt + 1)
  | p + 1, s, depth, alpha, beta, tbl, cnt =>
    if obs cnt then (⟨0, none⟩, tbl, cnt + 1)
    else
      let cnt1 := cnt + 1
      if g.isGameOver s then (⟨g.getScore s depth, none⟩, tbl, cnt1)
      else
        let probe :=
          if TTEN then ttProbe AB (p + 1) alpha beta (tbl.lookup (g.getHash s))
          else (none, alpha, beta)
        match probe.1 with
        | some r => (r, tbl, cnt1)
        | none =>
          let alpha1 := probe.2.1
          let beta1 := probe.2.2
          let options := (g.getTurnList s).map (fun m =>
            let c := g.applyTurn s m
            MoveOption.mk c m (estimateScoreFor g TTEN MAXS tbl c (depth + 1)))
          let sorted := if MO then
              List.insertionSort (fun a b : MoveOption S M => b.score ≤ a.score) options
            else options
          let lp := negamaxLoop g AB obs
            (fun s1 a b t c => search_recurse g AB MO TTEN MAXS obs p s1 (depth + 1) a b t c)
            sorted ⟨-MAXS, none⟩ alpha1 beta1 tbl cnt1
          match lp.1 with
          | NegamaxLoopOut.ret r => (r, lp.2.1, lp.2.2)
          | NegamaxLoopOut.done best =>
            let tbl3 :=
              if TTEN then
                lp.2.1.maybeUpdate
                  { hash := g.getHash s, turn := best.turn, score := best.score,
                    depth := p + 1,
                    boundType :=
                      if best.score ≤ alpha then BoundType.UPPER
                      else if beta1 ≤ best.score then BoundType.LOWER
                      else BoundType.EXACT }
              else lp.2.1
            (best, tbl3, lp.2.2)

/-- The abort flag as seen by successive observations: its value at
search start (always false, because Negamax::search assigns m_abort =
false before recursing) or-ed with whether the single external abort()
write (at observation index K, if any) has already happened. -/
def abortObs (flagAtSearchStart : Bool) (K : Option ℕ) (i : ℕ) : Bool :=
  flagAtSearchStart ||
    (match K with
     | none => false
     | some k => decide (k ≤ i))

/-- Negamax::search: reset the abort flag to false (whatever value
preAbortFlag it had before the call), then run search_recurse over the
full window (MIN_SCORE, MAX_SCORE) from depth 0.  K is the observation
index from which an external abort() write is visible, none when no
abort is ever raised. -/
def search (g : GameSpec S M) (AB MO TTEN : Bool) (MAXS : Int)
    (preAbortFlag : Bool) (K : Option ℕ) (s : S) (maxDepth : ℕ)
    (tbl : TranspositionTable M) : NegamaxResult M × TranspositionTable M × ℕ :=
  let flagAtSearchStart := false
  search_recurse g AB MO TTEN MAXS (abortObs flagAtSearchStart K)
    maxDepth s 0 (-MAXS) MAXS tbl 0

/-- A mock game for the Negamax template (Negamax is generic over
TGameState so that game states are mockable): state 1 is reachable both
directly from the root (one ply) and through states 2 (two plies), so
the same hash is met at two different remaining depths.  Leaf scores
grow along the 1 -> 3 -> 4 line, making the deep and shallow values of
state 1 differ. -/
def mockGame : GameSpec ℕ ℕ where
  getTurnList := fun s => match s with
    | 0 => [0, 1]
    | 1 => [0]
    | 2 => [0]
    | 3 => [0]
    | _ => []
  applyTurn := fun s m => match s, m with
    | 0, 0 => 1
    | 0, _ => 2
    | 1, _ => 3
    | 2, _ => 1
    | 3, _ => 4
    | _, _ => 0
  isGameOver := fun _ => false
  getScore := fun s _ => match s with
    | 1 => 0
    | 2 => 1
    | 3 => 10
    | 4 => 100
    | _ => 0
  getHash := fun s => s

/-- A one-move mock game used for the transposition-table store
counterexample: the root has a single successor whose leaf score is
-50, so the root backs up the value 50. -/
def mockLineGame : GameSpec ℕ ℕ where
  getTurnList := fun s => match s with
    | 0 => [0]
    | _ => []
  applyTurn := fun _ _ => 1
  isGameOver := fun _ => false
  getScore := fun s _ => match s with
    | 1 => -50
    | _ => 0
  getHash := fun s => s

/-- Table holding an upper-bound entry of score 10 for the root of
mockLineGame, deep enough to be used by a one-ply search. -/
def c4Table : TranspositionTable ℕ :=
  ⟨16, fun i => if i = 0 then some ⟨0, some 0, 10, 1, BoundType.UPPER⟩ else none⟩

/-- Table holding an upper-bound entry of score 5 for state 1 of
mockGame. -/
def c5Table : TranspositionTable ℕ :=
  ⟨16, fun i => if i = 1 then some ⟨1, some 0, 5, 3, BoundType.UPPER⟩ else none⟩

/-- Table holding an upper-bound entry of score -5 for the root of
mockGame, deep enough to be used by a two-ply search. -/
def c7Table : TranspositionTable ℕ :=
  ⟨16, fun i => if i = 0 then some ⟨0, some 0, -5, 2, BoundType.UPPER⟩ else none⟩

/-- A game whose every state has one successor and score zero, used to
witness the abort-propagation theorem. -/
def mockTotalGame : GameSpec ℕ ℕ where
  getTurnList := fun _ => [0]
  applyTurn := fun s _ => s + 1
  isGameOver := fun _ => false
  getScore := fun _ _ => 0
  getHash := fun s => s

/-- All entries of a transposition table have scores within [-B, B]. -/
def TTBounded (B : Int) (tbl : TranspositionTable M) : Prop :=
  ∀ i e, tbl.slots i = some e → -B ≤ e.score ∧ e.score ≤ B

/-- A negamax result whose score lies within [-B, B]. -/
def resBounded (B : Int) (r : NegamaxResult M) : Prop :=
  -B ≤ r.score ∧ r.score ≤ B

/-- Concrete board for the incremental-evaluation witness: a white pawn
on e4 about to capture a black knight on d5, kings on e1 and e8. -/
def captureWitnessBoard : Fin 64 → Piece := fun i =>
  if i.val = 28 then ⟨White, Pawn⟩
  else if i.val = 35 then ⟨Black, Knight⟩
  else if i.val = 4 then ⟨White, King⟩
  else if i.val = 60 then ⟨Black, King⟩
  else emptySquare


/-- The negamax value of a position, written from the spec (section 4.8,
steps 2 and 7): the depth-adjusted score at terminal nodes, otherwise
the maximum over all moves of the negated value of the child. -/
def negamaxValue (g : GameSpec S M) (MAXS : Int) : ℕ → ℕ → S → Int
  | 0, depth, s => g.getScore s depth
  | p + 1, depth, s =>
    if g.isGameOver s then g.getScore s depth
    else ((g.getTurnList s).map (fun m =>
      -(negamaxValue g MAXS p (depth + 1) (g.applyTurn s m)))).foldr max (-MAXS)

/-- C1: on the standard starting position (all 32 pieces on their
initial squares, White to move), generateTurns produces exactly 20
turns, namely the 16 white pawn one-step and two-step pushes and the 4
white knight moves, and this generation pass leaves every checkmate and
stalemate flag (and both kingInCheck flags) unset. -/
theorem generateTurns_startBoard_twenty_turns :
    (generateTurns White startBoard).1.Perm startExpectedTurns ∧
    (generateTurns White startBoard).1.length = 20 ∧
    (generateTurns White startBoard).2.m_checkmate White = false ∧
    (generateTurns White startBoard).2.m_checkmate Black = false ∧
    (generateTurns White startBoard).2.m_stalemate = false ∧
    (generateTurns White startBoard).2.m_kingInCheck White = false ∧
    (generateTurns White startBoard).2.m_kingInCheck Black = false :=
  ⟨by decide, by decide, by decide, by decide, by decide, by decide, by decide⟩

/-- C6: the ray helper getBitsW shifts a 64-bit value by 64 - field,
which is 64 (out of the legal range 0..63) for field 0, exactly the
unguarded case the source file's own comment above getBitsS warns
about; the shift amounts of getBitsN, getBitsS and getBitsE stay in
range for every field, and getBitsW is in range only for field >= 1. -/
theorem getBitsW_shift_sixtyfour_at_field_zero :
    getBitsW_shiftAmount 0 = 64 ∧ ¬ getBitsW_shiftAmount 0 < 64 ∧
    (∀ f : Fin 64, getBitsN_shiftAmount f.val < 64 ∧
      getBitsS_shiftAmount f.val < 64 ∧ getBitsE_shiftAmount f.val < 64) ∧
    (∀ f : Fin 63, getBitsW_shiftAmount (f.val + 1) < 64) :=
  ⟨by decide, by decide, by decide, by decide⟩

/-- C9: for every board state, generateTurns for a player sets the
opponent's kingInCheck flag to false, whatever its previous value, so
after a generation pass at most the moving player's flag is true. -/
theorem generateTurns_clears_opponent_kingInCheck (cb : ChessBoard) :
    (generateTurns White cb).2.m_kingInCheck Black = false ∧
    (generateTurns Black cb).2.m_kingInCheck White = false := by
  constructor <;>
  · unfold generateTurns
    simp only [ChessBoard.setKingInCheck, ChessBoard.setCheckmate, ChessBoard.setStalemate,
      togglePlayerColor]
    split <;> (repeat' split) <;> simp

/-- C8: for every 64-square board and every ordinary move of a real
piece p from f1 to f2 (f2 empty, or holding an enemy victim that the
move captures), applying captureIncrement for the victim (when there is
one) and then moveIncrement for the move to estimateFullBoard of the
old board yields exactly estimateFullBoard of the board after the move:
the incremental white-relative score agrees with a from-scratch
evaluation. -/
theorem moveIncrement_matches_estimateFullBoard
    (board : Fin 64 → Piece) (p : Piece) (f1 f2 : Fin 64) (victim : Option Piece)
    (hmover : board f1 = p)
    (hreal : pieceTypeIdx p.type ≤ pieceTypeIdx Pawn)
    (hplayer : p.player = White ∨ p.player = Black)
    (hne : f1 ≠ f2)
    (hempty : victim = none → pieceTypeIdx (board f2).type > pieceTypeIdx Pawn)
    (hcap : ∀ v, victim = some v → board f2 = v ∧
      pieceTypeIdx v.type ≤ pieceTypeIdx Pawn ∧ v.player = togglePlayerColor p.player) :
    moveIncrement (Turn.move p f1.val f2.val)
      (victim.elim (estimateFullBoard board)
        (fun v => captureIncrement f2.val v (estimateFullBoard board))) =
    estimateFullBoard (Function.update (Function.update board f1 emptySquare) f2 p) := by
  have key : ∀ g : Fin 64 → Piece,
      estimateFullBoard g = pieceContribution f1 (g f1) + pieceContribution f2 (g f2) +
        ∑ i ∈ (Finset.univ.erase f1).erase f2, pieceContribution i (g i) := by
    intro g
    rw [estimateFullBoard]
    rw [← Finset.add_sum_erase _ _ (Finset.mem_univ f1)]
    rw [← Finset.add_sum_erase _ (fun i => pieceContribution i (g i))
      (Finset.mem_erase.mpr ⟨Ne.symm hne, Finset.mem_univ f2⟩)]
    ring
  have hrest : ∑ i ∈ (Finset.univ.erase f1).erase f2,
      pieceContribution i ((Function.update (Function.update board f1 emptySquare) f2 p) i) =
      ∑ i ∈ (Finset.univ.erase f1).erase f2, pieceContribution i (board i) := by
    refine Finset.sum_congr rfl (fun i hi => ?_)
    have h2 : i ≠ f2 := (Finset.mem_erase.mp hi).1
    have h1 : i ≠ f1 := (Finset.mem_erase.mp (Finset.mem_erase.mp hi).2).1
    rw [Function.update_noteq h2, Function.update_noteq h1]
  have hB1 : (Function.update (Function.update board f1 emptySquare) f2 p) f1 = emptySquare := by
    rw [Function.update_noteq hne, Function.update_same]
  have hB2 : (Function.update (Function.update board f1 emptySquare) f2 p) f2 = p := by
    rw [Function.update_same]
  have hc1empty : pieceContribution f1 emptySquare = 0 := by
    simp [pieceContribution, emptySquare, pieceTypeIdx]
  rw [key (Function.update (Function.update board f1 emptySquare) f2 p), hrest, hB1, hB2,
    hc1empty]
  cases victim with
  | none =>
    have hv := hempty rfl
    have hc2 : pieceContribution f2 (board f2) = 0 := by
      rw [pieceContribution]
      rw [if_neg (by omega)]
    rw [Option.elim]
    rw [key board, hmover, hc2]
    rcases hplayer with hw | hb
    · rw [moveIncrement, pieceContribution, pieceContribution]
      simp only [Turn.move, hw, if_pos hreal]
      simp only [show (White = Black) = False by simp, show (Black = White) = False by simp,
        if_false, if_true]
      ring
    · rw [moveIncrement, pieceContribution, pieceContribution]
      simp only [Turn.move, hb, if_pos hreal]
      simp only [show (White = Black) = False by simp, show (Black = White) = False by simp,
        if_false, if_true]
      ring
  | some v =>
    obtain ⟨hbv, hvreal, hvpl⟩ := hcap v rfl
    rw [Option.elim]
    rw [key board, hmover, hbv]
    rcases hplayer with hw | hb
    · have hvb : v.player = Black := by rw [hvpl, hw]; rfl
      rw [moveIncrement, captureIncrement, pieceContribution, pieceContribution,
        pieceContribution]
      simp only [Turn.move, hw, hvb, if_pos hreal, if_pos hvreal]
      simp only [show (White = Black) = False by simp, show (Black = White) = False by simp,
        if_false, if_true]
      ring
    · have hvw : v.player = White := by rw [hvpl, hb]; rfl
      rw [moveIncrement, captureIncrement, pieceContribution, pieceContribution,
        pieceContribution]
      simp only [Turn.move, hb, hvw, if_pos hreal, if_pos hvreal]
      simp only [show (White = Black) = False by simp, show (Black = White) = False by simp,
        if_false, if_true]
      ring

/-- C3 counterexample: for a fixed game state and depth (mockGame from
state 0, depth 3, fresh transposition table, no abort), the score of
the result of Negamax::search with transposition tables enabled is 100
while with them disabled (alpha-beta and move ordering enabled in both
runs) it is -10: the eight toggle combinations do not all yield the
same score.  A table entry written by a 2-plies-deep search of state 1
is reused when state 1 is reached with only 1 ply left, replacing the
shallow value of state 1 by its deep value. -/
theorem search_score_differs_with_transposition_tables :
    (search mockGame true true true 1000000 false none 0 3 (emptyTable ℕ 16)).1.score = 100 ∧
    (search mockGame true true false 1000000 false none 0 3 (emptyTable ℕ 16)).1.score = -10 ∧
    (search mockGame true true true 1000000 false none 0 3 (emptyTable ℕ 16)).1.score ≠
      (search mockGame true true false 1000000 false none 0 3 (emptyTable ℕ 16)).1.score :=
  ⟨by decide, by decide, by decide⟩

/-- C4 counterexample: a one-ply search_recurse of mockLineGame entered
with window (0, 1000), on a table whose root entry is an upper bound of
10, backs up the score 50 and stores it classified LOWER (because the
probe lowered beta to 10 and 50 >= 10), although 50 lies strictly
inside the window (0, 1000) the node was entered with, where a
classification against the entered window would be EXACT. -/
theorem tt_store_uses_adjusted_beta_counterexample :
    (search_recurse mockLineGame true true true 1000000 (fun _ => false)
        1 0 0 0 1000 c4Table 0).1.score = 50 ∧
    (search_recurse mockLineGame true true true 1000000 (fun _ => false)
        1 0 0 0 1000 c4Table 0).2.1.slots 0 =
      some ⟨0, some 0, 50, 1, BoundType.LOWER⟩ ∧
    (0 : Int) < 50 ∧ (50 : Int) < 1000 :=
  ⟨by decide, by decide, by decide, by decide⟩

/-- C5 counterexample: for a child state whose hash has an upper-bound
transposition table entry with stored score 5, estimateScoreFor returns
-MIN_SCORE (here 1000000), not the negation -5 of the stored score: the
claim fails for upper-bound entries. -/
theorem estimateScoreFor_upper_counterexample :
    c5Table.lookup (mockGame.getHash 1) = some ⟨1, some 0, 5, 3, BoundType.UPPER⟩ ∧
    estimateScoreFor mockGame true 1000000 c5Table 1 0 = 1000000 ∧
    estimateScoreFor mockGame true 1000000 c5Table 1 0 ≠ -5 :=
  ⟨by decide, by decide, by decide⟩

/-- C5 as the code has it: the ordering estimate is the negation of the
child's current score when transposition tables are disabled or no
entry exists for the child's hash; when an entry exists it is the
negation of the stored score for EXACT and LOWER entries, but
-MIN_SCORE (= MAXS) for UPPER entries. -/
theorem estimateScoreFor_cases (g : GameSpec S M) (MAXS : Int)
    (tbl : TranspositionTable M) (s : S) (depth : ℕ) :
    (estimateScoreFor g false MAXS tbl s depth = -(g.getScore s depth)) ∧
    (tbl.lookup (g.getHash s) = none →
      estimateScoreFor g true MAXS tbl s depth = -(g.getScore s depth)) ∧
    (∀ e, tbl.lookup (g.getHash s) = some e →
      (e.boundType = BoundType.UPPER →
        estimateScoreFor g true MAXS tbl s depth = MAXS) ∧
      (e.boundType ≠ BoundType.UPPER →
        estimateScoreFor g true MAXS tbl s depth = -e.score)) := by
  refine ⟨rfl, fun h => ?_, fun e he => ⟨fun hu => ?_, fun hnu => ?_⟩⟩
  · simp [estimateScoreFor, h]
  · simp [estimateScoreFor, he, TranspositionTableEntry.isUpperBound, hu]
  · simp [estimateScoreFor, he, TranspositionTableEntry.isUpperBound, hnu]

/-- Witness for the estimateScoreFor case analysis at concrete inputs:
state 2 of mockGame has no entry in c5Table, state 1 has an upper-bound
entry. -/
theorem estimateScoreFor_cases_witness :
    estimateScoreFor mockGame false 1000000 c5Table 2 0 = -(mockGame.getScore 2 0) ∧
    estimateScoreFor mockGame true 1000000 c5Table 2 0 = -(mockGame.getScore 2 0) ∧
    estimateScoreFor mockGame true 1000000 c5Table 1 0 = 1000000 :=
  ⟨(estimateScoreFor_cases mockGame 1000000 c5Table 2 0).1,
   (estimateScoreFor_cases mockGame 1000000 c5Table 2 0).2.1 (by decide),
   ((estimateScoreFor_cases mockGame 1000000 c5Table 1 0).2.2
      ⟨1, some 0, 5, 3, BoundType.UPPER⟩ (by decide)).1 rfl⟩

/-- C7 counterexample: searching mockGame two plies deep from a table
whose root entry is an upper bound of -5, with the abort write becoming
visible at observation index 1 (inside the first child's frame), the
search observes the abort (the final observation count 2 exceeds 1) yet
returns a result whose turn is set - not the sentinel (0, none).  The
probe lowered the root beta to -5, so after the aborted child returns
score 0 the root cuts off before reaching its own abort check. -/
theorem abort_observed_nonsentinel_counterexample :
    1 < (search mockGame true true true 1000000 false (some 1) 0 2 c7Table).2.2 ∧
    (search mockGame true true true 1000000 false (some 1) 0 2 c7Table).1 ≠
      ⟨0, none⟩ :=
  ⟨by decide, by decide⟩

/-- C10: Negamax::search assigns m_abort = false before recursing, so
its result does not depend on the abort flag value the instance carried
before the call: an abort() issued before search begins has no effect,
and an abort raised during one search does not leak into a subsequent
search on the same instance (second conjunct: a search run on the table
left behind by any earlier - possibly aborted - search behaves as if
the flag were clear). -/
theorem search_resets_abort_flag (g : GameSpec S M) (AB MO TTEN : Bool) (MAXS : Int)
    (K : Option ℕ) (s : S) (maxDepth : ℕ) (tbl : TranspositionTable M) :
    (∀ pre : Bool, search g AB MO TTEN MAXS pre K s maxDepth tbl =
      search g AB MO TTEN MAXS false K s maxDepth tbl) ∧
    (∀ (pre : Bool) (K1 : Option ℕ) (s1 : S) (d1 : ℕ) (K2 : Option ℕ) (s2 : S) (d2 : ℕ),
      search g AB MO TTEN MAXS true K2 s2 d2
          (search g AB MO TTEN MAXS pre K1 s1 d1 tbl).2.1 =
        search g AB MO TTEN MAXS false K2 s2 d2
          (search g AB MO TTEN MAXS pre K1 s1 d1 tbl).2.1) :=
  ⟨fun _ => rfl, fun _ _ _ _ _ _ _ => rfl⟩

/-- Witness for the incremental-evaluation theorem at the concrete
pawn-takes-knight input. -/
theorem moveIncrement_matches_estimateFullBoard_witness :
    moveIncrement (Turn.move ⟨White, Pawn⟩ (28 : Fin 64).val (35 : Fin 64).val)
      ((some (⟨Black, Knight⟩ : Piece)).elim (estimateFullBoard captureWitnessBoard)
        (fun v => captureIncrement (35 : Fin 64).val v (estimateFullBoard captureWitnessBoard))) =
    estimateFullBoard
      (Function.update (Function.update captureWitnessBoard 28 emptySquare) 35
        ⟨White, Pawn⟩) :=
  moveIncrement_matches_estimateFullBoard captureWitnessBoard ⟨White, Pawn⟩ 28 35
    (some ⟨Black, Knight⟩) (by decide) (by decide) (Or.inl rfl) (by decide)
    (fun h => nomatch h)
    (fun v hv => by
      injection hv with h
      subst h
      exact ⟨by decide, by decide, rfl⟩)

/-- With an abort-flag observation function that is constantly false,
the candidate loop never takes the abort early-return: it always
finishes with a done outcome. -/
theorem negamaxLoop_no_abort_done (g : GameSpec S M) (AB : Bool)
    (rec : S → Int → Int → TranspositionTable M → ℕ →
      NegamaxResult M × TranspositionTable M × ℕ) :
    ∀ (L : List (MoveOption S M)) (best : NegamaxResult M) (alpha beta : Int)
      (tbl : TranspositionTable M) (cnt : ℕ),
      ∃ b tbl2 cnt2,
        negamaxLoop g AB (fun _ => false) rec L best alpha beta tbl cnt =
          (NegamaxLoopOut.done b, tbl2, cnt2) := by
  intro L
  induction L with
  | nil =>
    intro best alpha beta tbl cnt
    exact ⟨best, tbl, cnt, rfl⟩
  | cons o rest ih =>
    intro best alpha beta tbl cnt
    rw [negamaxLoop]
    dsimp only
    split
    · exact ⟨_, _, _, rfl⟩
    · exact ih _ _ _ _ _

set_option maxHeartbeats 1000000 in
/-- C4 (as the code has it): in every invocation of search_recurse that
is not terminal, not aborted, has transposition tables enabled and does
not return early out of the probe, the entry stored for the node holds
the returned turn and score, depth equal to the remaining plies, and a
boundType classified as UPPER when the score is at most initialAlpha
(the alpha the node was entered with), as LOWER when the score is at
least the beta AS ADJUSTED BY THE PROBE (not the entered beta), and
EXACT otherwise. -/
theorem tt_store_classified_against_probed_beta (g : GameSpec S M) (AB MO : Bool)
    (MAXS : Int) (p depth : ℕ) (s : S) (alpha beta : Int)
    (tbl : TranspositionTable M) (cnt : ℕ)
    (hnotover : g.isGameOver s = false)
    (hprobe : (ttProbe AB (p + 1) alpha beta (tbl.lookup (g.getHash s))).1 =
      (none : Option (NegamaxResult M))) :
    (search_recurse g AB MO true MAXS (fun _ => false)
        (p + 1) s depth alpha beta tbl cnt).2.1.lookup (g.getHash s) =
      some { hash := g.getHash s,
             turn := (search_recurse g AB MO true MAXS (fun _ => false)
               (p + 1) s depth alpha beta tbl cnt).1.turn,
             score := (search_recurse g AB MO true MAXS (fun _ => false)
               (p + 1) s depth alpha beta tbl cnt).1.score,
             depth := p + 1,
             boundType :=
               if (search_recurse g AB MO true MAXS (fun _ => false)
                     (p + 1) s depth alpha beta tbl cnt).1.score ≤ alpha then
                 BoundType.UPPER
               else if (ttProbe AB (p + 1) alpha beta (tbl.lookup (g.getHash s))).2.2 ≤
                   (search_recurse g AB MO true MAXS (fun _ => false)
                     (p + 1) s depth alpha beta tbl cnt).1.score then
                 BoundType.LOWER
               else BoundType.EXACT } := by
  obtain ⟨b, tbl2, cnt2, hlp⟩ := negamaxLoop_no_abort_done g AB
    (fun s1 a b t c => search_recurse g AB MO true MAXS (fun _ => false) p s1 (depth + 1) a b t c)
    (if MO then
        List.insertionSort (fun a b : MoveOption S M => b.score ≤ a.score)
          ((g.getTurnList s).map (fun m =>
            let c := g.applyTurn s m
            MoveOption.mk c m (estimateScoreFor g true MAXS tbl c (depth + 1))))
      else ((g.getTurnList s).map (fun m =>
            let c := g.applyTurn s m
            MoveOption.mk c m (estimateScoreFor g true MAXS tbl c (depth + 1)))))
    ⟨-MAXS, none⟩ (ttProbe AB (p + 1) alpha beta (tbl.lookup (g.getHash s))).2.1
    (ttProbe AB (p + 1) alpha beta (tbl.lookup (g.getHash s))).2.2 tbl (cnt + 1)
  rw [search_recurse]
  simp only [Bool.false_eq_true, if_false, hnotover, if_true, hprobe, hlp]
  simp [TranspositionTable.maybeUpdate, TranspositionTable.lookup]

/-- Witness for the store-classification theorem at the concrete
mockLineGame input of the counterexample. -/
theorem tt_store_classified_against_probed_beta_witness :
    (search_recurse mockLineGame true true true 1000000 (fun _ => false)
        1 0 0 0 1000 c4Table 0).2.1.lookup (mockLineGame.getHash 0) =
      some { hash := mockLineGame.getHash 0,
             turn := (search_recurse mockLineGame true true true 1000000 (fun _ => false)
               1 0 0 0 1000 c4Table 0).1.turn,
             score := (search_recurse mockLineGame true true true 1000000 (fun _ => false)
               1 0 0 0 1000 c4Table 0).1.score,
             depth := 1,
             boundType :=
               if (search_recurse mockLineGame true true true 1000000 (fun _ => false)
                     1 0 0 0 1000 c4Table 0).1.score ≤ 0 then
                 BoundType.UPPER
               else if (ttProbe true 1 0 1000 (c4Table.lookup (mockLineGame.getHash 0))).2.2 ≤
                   (search_recurse mockLineGame true true true 1000000 (fun _ => false)
                     1 0 0 0 1000 c4Table 0).1.score then
                 BoundType.LOWER
               else BoundType.EXACT } :=
  tt_store_classified_against_probed_beta mockLineGame true true 1000000 0 0 0 0 1000 c4Table 0
    (by decide) (by decide)

/-- A probe that returns an early result read it from a table entry. -/
theorem ttProbe_some_entry (AB : Bool) (pl : ℕ) (alpha beta : Int)
    (l : Option (TranspositionTableEntry M)) (r : NegamaxResult M)
    (h : (ttProbe AB pl alpha beta l).1 = some r) :
    ∃ e, l = some e ∧ r.score = e.score := by
  cases l with
  | none => simp [ttProbe] at h
  | some e =>
    refine ⟨e, rfl, ?_⟩
    rw [ttProbe] at h
    dsimp only at h
    split at h
    · split at h
      · injection h with h1; rw [← h1]
      · split at h
        · split at h
          · injection h with h1; rw [← h1]
          · exact absurd h (by simp)
        · split at h
          · injection h with h1; rw [← h1]
          · exact absurd h (by simp)
    · exact absurd h (by simp)

/-- A successful transposition table lookup reads its slot. -/
theorem lookup_some_slot (tbl : TranspositionTable M) (h : ℕ)
    (e : TranspositionTableEntry M) (hl : tbl.lookup h = some e) :
    tbl.slots (h % tbl.size) = some e := by
  rw [TranspositionTable.lookup] at hl
  cases hs : tbl.slots (h % tbl.size) with
  | none => rw [hs] at hl; exact absurd hl (by simp)
  | some e1 =>
    rw [hs] at hl
    dsimp only at hl
    by_cases hh : e1.hash = h
    · rw [if_pos hh] at hl
      injection hl with hl
      rw [hl]
    · rw [if_neg hh] at hl
      exact absurd hl (by simp)

/-- Storing a bounded entry keeps a table bounded. -/
theorem TTBounded_maybeUpdate (B : Int) (tbl : TranspositionTable M)
    (e : TranspositionTableEntry M) (htbl : TTBounded B tbl)
    (he : -B ≤ e.score ∧ e.score ≤ B) : TTBounded B (tbl.maybeUpdate e) := by
  intro i e1 h1
  rw [TranspositionTable.maybeUpdate] at h1
  dsimp only at h1
  split at h1
  · injection h1 with h1; rw [← h1]; exact he
  · exact htbl i e1 h1

/-- The candidate loop keeps scores and tables within the leaf-score
bound B: child results within [-B, B] force every best update, the
abort sentinel and every finished best to stay within [-B, B]. -/
theorem negamaxLoop_bounded (g : GameSpec S M) (AB : Bool) (obs : ℕ → Bool) (B : Int)
    (hB0 : 0 ≤ B)
    (rec : S → Int → Int → TranspositionTable M → ℕ →
      NegamaxResult M × TranspositionTable M × ℕ)
    (MAXS : Int) (hM : B < MAXS)
    (hrec : ∀ s a b t c, TTBounded B t →
      resBounded B (rec s a b t c).1 ∧ TTBounded B (rec s a b t c).2.1) :
    ∀ (L : List (MoveOption S M)) best alpha beta tbl cnt,
      TTBounded B tbl →
      (resBounded B best ∨ (best.score = -MAXS ∧ L ≠ [])) →
      TTBounded B (negamaxLoop g AB obs rec L best alpha beta tbl cnt).2.1 ∧
      (∀ r, (negamaxLoop g AB obs rec L best alpha beta tbl cnt).1 =
        NegamaxLoopOut.ret r → resBounded B r) ∧
      (∀ b, (negamaxLoop g AB obs rec L best alpha beta tbl cnt).1 =
        NegamaxLoopOut.done b → resBounded B b) := by
  intro L
  induction L with
  | nil =>
    intro best alpha beta tbl cnt htbl hbest
    refine ⟨htbl, by simp [negamaxLoop], ?_⟩
    intro b hb
    simp only [negamaxLoop] at hb
    injection hb with hb
    rcases hbest with h | ⟨_, hne⟩
    · rw [← hb]; exact h
    · exact absurd rfl hne
  | cons o rest ih =>
    intro best alpha beta tbl cnt htbl hbest
    obtain ⟨⟨h1, h2⟩, htbl1⟩ := hrec o.state (-beta) (-alpha) tbl cnt htbl
    have hbest1 : resBounded B
        (if best.score < (⟨-(rec o.state (-beta) (-alpha) tbl cnt).1.score,
            (rec o.state (-beta) (-alpha) tbl cnt).1.turn⟩ : NegamaxResult M).score then
          (⟨(⟨-(rec o.state (-beta) (-alpha) tbl cnt).1.score,
            (rec o.state (-beta) (-alpha) tbl cnt).1.turn⟩ : NegamaxResult M).score,
            some o.turn⟩ : NegamaxResult M)
        else best) := by
      split
      · exact ⟨by dsimp only; omega, by dsimp only; omega⟩
      · next hlt =>
          rcases hbest with h | ⟨hms, _⟩
          · exact h
          · exfalso
            dsimp only at hlt
            rw [hms] at hlt
            omega
    rw [negamaxLoop]
    dsimp only
    split
    · refine ⟨htbl1, by simp, ?_⟩
      intro b hb
      injection hb with hb
      rw [← hb]
      exact hbest1
    · split
      · refine ⟨htbl1, ?_, by simp⟩
        intro r hr
        injection hr with hr
        rw [← hr]
        exact ⟨by dsimp only; omega, by dsimp only; omega⟩
      · exact ih _ _ _ _ _ htbl1 (Or.inl hbest1)

/-- search_recurse keeps scores and tables within the leaf-score bound
B when every leaf score is within [-B, B], every non-final position has
a move, and the incoming table is bounded. -/
theorem search_recurse_bounded (g : GameSpec S M) (AB MO TTEN : Bool) (MAXS : Int)
    (obs : ℕ → Bool) (B : Int)
    (hB0 : 0 ≤ B) (hM : B < MAXS)
    (hscore : ∀ s d, -B ≤ g.getScore s d ∧ g.getScore s d ≤ B)
    (hturns : ∀ s, g.isGameOver s = false → g.getTurnList s ≠ []) :
    ∀ (p : ℕ) (s : S) (depth : ℕ) (alpha beta : Int) (tbl : TranspositionTable M) (cnt : ℕ),
      TTBounded B tbl →
      resBounded B (search_recurse g AB MO TTEN MAXS obs p s depth alpha beta tbl cnt).1 ∧
      TTBounded B (search_recurse g AB MO TTEN MAXS obs p s depth alpha beta tbl cnt).2.1 := by
  intro p
  induction p with
  | zero =>
    intro s depth alpha beta tbl cnt htbl
    rw [search_recurse]
    split
    · exact ⟨⟨neg_nonpos.mpr hB0, hB0⟩, htbl⟩
    · exact ⟨hscore s depth, htbl⟩
  | succ p ih =>
    intro s depth alpha beta tbl cnt htbl
    rw [search_recurse]
    dsimp only
    split
    · exact ⟨⟨neg_nonpos.mpr hB0, hB0⟩, htbl⟩
    · split
      · exact ⟨hscore s depth, htbl⟩
      · next hnotover =>
        split
        · next r heq =>
          refine ⟨?_, htbl⟩
          by_cases hT : TTEN
          · rw [if_pos hT] at heq
            obtain ⟨e, hl, hsc⟩ := ttProbe_some_entry _ _ _ _ _ _ heq
            have := htbl _ _ (lookup_some_slot tbl (g.getHash s) e hl)
            exact ⟨by dsimp only; omega, by dsimp only; omega⟩
          · rw [if_neg hT] at heq
            exact absurd heq (by simp)
        · have hsorted : (if MO then
              List.insertionSort (fun a b : MoveOption S M => b.score ≤ a.score)
                ((g.getTurnList s).map (fun m =>
                  let c := g.applyTurn s m
                  MoveOption.mk c m (estimateScoreFor g TTEN MAXS tbl c (depth + 1))))
            else ((g.getTurnList s).map (fun m =>
                  let c := g.applyTurn s m
                  MoveOption.mk c m (estimateScoreFor g TTEN MAXS tbl c (depth + 1))))) ≠ [] := by
            have hmap : ((g.getTurnList s).map (fun m =>
                let c := g.applyTurn s m
                MoveOption.mk c m (estimateScoreFor g TTEN MAXS tbl c (depth + 1)))) ≠ [] := by
              simp only [ne_eq, List.map_eq_nil_iff]
              exact hturns s (by simpa using hnotover)
            split
            · intro hnil
              have := (List.perm_insertionSort
                (fun a b : MoveOption S M => b.score ≤ a.score)
                ((g.getTurnList s).map (fun m =>
                  let c := g.applyTurn s m
                  MoveOption.mk c m (estimateScoreFor g TTEN MAXS tbl c (depth + 1))))).length_eq
              rw [hnil] at this
              exact hmap (List.length_eq_zero.mp this.symm)
            · exact hmap
          have hloop := negamaxLoop_bounded g AB obs B hB0
            (fun s1 a b t c => search_recurse g AB MO TTEN MAXS obs p s1 (depth + 1) a b t c)
            MAXS hM
            (fun s1 a b t c ht => ih s1 (depth + 1) a b t c ht)
            (if MO then
              List.insertionSort (fun a b : MoveOption S M => b.score ≤ a.score)
                ((g.getTurnList s).map (fun m =>
                  let c := g.applyTurn s m
                  MoveOption.mk c m (estimateScoreFor g TTEN MAXS tbl c (depth + 1))))
            else ((g.getTurnList s).map (fun m =>
                  let c := g.applyTurn s m
                  MoveOption.mk c m (estimateScoreFor g TTEN MAXS tbl c (depth + 1)))))
            ⟨-MAXS, none⟩
            ((if TTEN then ttProbe AB (p + 1) alpha beta (tbl.lookup (g.getHash s))
              else (none, alpha, beta)).2.1)
            ((if TTEN then ttProbe AB (p + 1) alpha beta (tbl.lookup (g.getHash s))
              else (none, alpha, beta)).2.2)
            tbl (cnt + 1) htbl (Or.inr ⟨rfl, hsorted⟩)
          split
          · next r heq => exact ⟨hloop.2.1 r heq, hloop.1⟩
          · next b heq =>
            refine ⟨hloop.2.2 b heq, ?_⟩
            split
            · next hT =>
              simp only [hT, if_true] at hloop heq ⊢
              exact TTBounded_maybeUpdate B _ _ hloop.1 (hloop.2.2 b heq)
            · next hT =>
              simp only [Bool.not_eq_true] at hT
              simp only [hT, Bool.false_eq_true, if_false] at hloop ⊢
              exact hloop.1

/-- At a root-shaped loop (beta = MAX_SCORE) with bounded child scores,
alpha never reaches beta, so the loop either returns the abort sentinel
or finishes with all its abort observations made while the abort write
(at index K) was not yet visible. -/
theorem negamaxLoop_abort_root (g : GameSpec S M) (AB : Bool) (K : ℕ)
    (rec : S → Int → Int → TranspositionTable M → ℕ →
      NegamaxResult M × TranspositionTable M × ℕ)
    (B MAXS : Int) (hM : B < MAXS)
    (hrec_bd : ∀ s a b t c, TTBounded B t →
      resBounded B (rec s a b t c).1 ∧ TTBounded B (rec s a b t c).2.1) :
    ∀ (L : List (MoveOption S M)) best alpha tbl cnt,
      TTBounded B tbl → alpha < MAXS → cnt ≤ K →
      (negamaxLoop g AB (abortObs false (some K)) rec L best alpha MAXS tbl cnt).1 =
          NegamaxLoopOut.ret ⟨0, none⟩ ∨
        ((negamaxLoop g AB (abortObs false (some K)) rec L best alpha MAXS tbl cnt).2.2 ≤ K ∧
          ∃ b, (negamaxLoop g AB (abortObs false (some K)) rec L best alpha MAXS tbl cnt).1 =
            NegamaxLoopOut.done b) := by
  intro L
  induction L with
  | nil =>
    intro best alpha tbl cnt htbl halpha hcnt
    exact Or.inr ⟨hcnt, best, rfl⟩
  | cons o rest ih =>
    intro best alpha tbl cnt htbl halpha hcnt
    obtain ⟨⟨hr1, hr2⟩, htbl1⟩ := hrec_bd o.state (-MAXS) (-alpha) tbl cnt htbl
    rw [negamaxLoop]
    dsimp only
    split
    · next hbrk =>
      exfalso
      obtain ⟨_, hba⟩ := hbrk
      have : -(rec o.state (-MAXS) (-alpha) tbl cnt).1.score < MAXS := by omega
      omega
    · by_cases hobs : K ≤ (rec o.state (-MAXS) (-alpha) tbl cnt).2.2
      · rw [if_pos (by simp [abortObs, hobs])]
        exact Or.inl rfl
      · rw [if_neg (by simp [abortObs]; omega)]
        exact ih _ _ _ _ htbl1 (by
          have : -(rec o.state (-MAXS) (-alpha) tbl cnt).1.score < MAXS := by omega
          exact max_lt halpha this) (by omega)

/-- C7 (amended): for every game with leaf scores strictly inside
(MIN_SCORE, MAX_SCORE), nonempty move lists off game-over states, a
bounded transposition table holding no entry for the root deep enough
to be used (for instance a fresh table), and a single abort write
becoming visible at observation index K: whenever the abort write is
observed during the search (K is below the final observation count),
the top-level search returns exactly the sentinel (score 0, no turn). -/
theorem search_abort_observed_sentinel (g : GameSpec S M) (AB MO TTEN : Bool)
    (MAXS B : Int) (hB0 : 0 ≤ B) (hM : B < MAXS)
    (hscore : ∀ s d, -B ≤ g.getScore s d ∧ g.getScore s d ≤ B)
    (hturns : ∀ s, g.isGameOver s = false → g.getTurnList s ≠ [])
    (s : S) (maxDepth : ℕ) (tbl : TranspositionTable M)
    (htbl : TTBounded B tbl)
    (hroot : ∀ e, tbl.lookup (g.getHash s) = some e → e.depth < maxDepth)
    (K : ℕ) (pre : Bool)
    (habort : K < (search g AB MO TTEN MAXS pre (some K) s maxDepth tbl).2.2) :
    (search g AB MO TTEN MAXS pre (some K) s maxDepth tbl).1 = ⟨0, none⟩ := by
  rcases Nat.eq_zero_or_pos K with hK0 | hKpos
  · subst hK0
    cases maxDepth with
    | zero =>
      rw [search, search_recurse]
      rw [if_pos (by simp [abortObs])]
    | succ p =>
      rw [search, search_recurse]
      rw [if_pos (by simp [abortObs])]
  · cases maxDepth with
    | zero =>
      exfalso
      rw [search, search_recurse] at habort
      rw [if_neg (by simp [abortObs]; omega)] at habort
      dsimp only at habort
      omega
    | succ p =>
      have hobs0 : abortObs false (some K) 0 = false := by simp [abortObs]; omega
      rw [search] at habort ⊢
      rw [search_recurse] at habort ⊢
      rw [if_neg (by rw [hobs0]; simp)] at habort ⊢
      dsimp only at habort ⊢
      by_cases hgo : g.isGameOver s
      · rw [if_pos hgo] at habort
        dsimp only at habort
        omega
      · rw [if_neg hgo] at habort ⊢
        have hpr : (if TTEN then ttProbe AB (p + 1) (-MAXS) MAXS (tbl.lookup (g.getHash s))
            else (none, -MAXS, MAXS)) =
            ((none : Option (NegamaxResult M)), -MAXS, MAXS) := by
          by_cases hT : TTEN
          · rw [if_pos hT]
            cases hl : tbl.lookup (g.getHash s) with
            | none => rw [ttProbe]
            | some e =>
              rw [ttProbe]
              dsimp only
              rw [if_neg (by have := hroot e hl; omega)]
          · rw [if_neg hT]
        rw [hpr] at habort ⊢
        dsimp only at habort ⊢
        have hout := negamaxLoop_abort_root g AB K
          (fun s1 a b t c =>
            search_recurse g AB MO TTEN MAXS (abortObs false (some K)) p s1 (0 + 1) a b t c)
          B MAXS hM
          (fun s1 a b t c ht =>
            search_recurse_bounded g AB MO TTEN MAXS (abortObs false (some K)) B hB0 hM
              hscore hturns p s1 (0 + 1) a b t c ht)
          (if MO then
              List.insertionSort (fun a b : MoveOption S M => b.score ≤ a.score)
                ((g.getTurnList s).map (fun m =>
                  let c := g.applyTurn s m
                  MoveOption.mk c m (estimateScoreFor g TTEN MAXS tbl c (0 + 1))))
            else ((g.getTurnList s).map (fun m =>
                  let c := g.applyTurn s m
                  MoveOption.mk c m (estimateScoreFor g TTEN MAXS tbl c (0 + 1)))))
          ⟨-MAXS, none⟩ (-MAXS) tbl 1 htbl (by omega) hKpos
        rcases hout with h1 | ⟨hle, b, h2⟩
        · rw [h1]
        · rw [h2] at habort ⊢
          dsimp only at habort hle ⊢
          simp only [Nat.zero_add] at habort hle ⊢
          omega

/-- Witness for the abort-propagation theorem: a two-ply search of the
one-successor game with the abort visible from observation index 1
observes it and returns the sentinel. -/
theorem search_abort_observed_sentinel_witness :
    (search mockTotalGame true true true 1000000 false (some 1) 0 2 (emptyTable ℕ 16)).1 =
      ⟨0, none⟩ :=
  search_abort_observed_sentinel mockTotalGame true true true 1000000 100 (by decide) (by decide)
    (fun _ _ => ⟨show (-100 : Int) ≤ 0 by decide, show (0 : Int) ≤ 100 by decide⟩)
    (fun _ _ => show ([0] : List ℕ) ≠ [] by decide)
    0 2 (emptyTable ℕ 16)
    (fun i e h => by simp [emptyTable] at h)
    (fun e h => by simp [emptyTable, TranspositionTable.lookup] at h)
    1 false (by decide)


theorem foldlMax_cons (a x : Int) (L : List Int) :
    (x :: L).foldl max a = L.foldl max (max a x) := rfl

theorem le_foldlMax (L : List Int) : ∀ a : Int, a ≤ L.foldl max a := by
  induction L with
  | nil => intro a; exact le_refl a
  | cons x L ih => intro a; exact le_trans (le_max_left a x) (ih (max a x))

theorem foldlMax_mono (L : List Int) : ∀ a b : Int, a ≤ b → L.foldl max a ≤ L.foldl max b := by
  induction L with
  | nil => intro a b h; exact h
  | cons x L ih => intro a b h; exact ih _ _ (max_le_max_right x h)

theorem foldlMax_le (L : List Int) : ∀ a c : Int, a ≤ c → (∀ x ∈ L, x ≤ c) →
    L.foldl max a ≤ c := by
  induction L with
  | nil => intro a c h _; exact h
  | cons x L ih =>
    intro a c h hL
    exact ih _ _ (max_le h (hL x (List.mem_cons_self x L))) (fun y hy => hL y (List.mem_cons_of_mem x hy))

theorem elem_le_foldlMax (L : List Int) : ∀ (a x : Int), x ∈ L → x ≤ L.foldl max a := by
  induction L with
  | nil => intro a x h; cases h
  | cons y L ih =>
    intro a x h
    rcases List.mem_cons.mp h with h1 | h2
    · rw [h1, foldlMax_cons]
      exact le_trans (le_max_right a y) (le_foldlMax L (max a y))
    · exact ih _ x h2

theorem foldlMax_pull (L : List Int) : ∀ a y : Int,
    L.foldl max (max a y) = max y (L.foldl max a) := by
  induction L with
  | nil => intro a y; exact max_comm a y
  | cons x L ih =>
    intro a y
    rw [foldlMax_cons, foldlMax_cons, show max (max a y) x = max (max a x) y by
      rw [max_assoc, max_assoc, max_comm y x], ih]

theorem foldrMax_eq_foldlMax (L : List Int) : ∀ a : Int, L.foldr max a = L.foldl max a := by
  induction L with
  | nil => intro a; rfl
  | cons x L ih =>
    intro a
    rw [List.foldr_cons, ih, foldlMax_cons, foldlMax_pull]

theorem foldlMax_perm {L1 L2 : List Int} (h : L1.Perm L2) :
    ∀ a : Int, L1.foldl max a = L2.foldl max a := by
  induction h with
  | nil => intro a; rfl
  | cons x h ih => intro a; rw [foldlMax_cons, foldlMax_cons, ih]
  | swap x y l =>
    intro a
    rw [foldlMax_cons, foldlMax_cons, foldlMax_cons, foldlMax_cons,
      show max (max a y) x = max (max a x) y by rw [max_assoc, max_assoc, max_comm y x]]
  | trans h1 h2 ih1 ih2 => intro a; rw [ih1, ih2]

theorem negamaxValue_bounded (g : GameSpec S M) (MAXS B : Int)
    (hB0 : 0 ≤ B) (hM : B < MAXS)
    (hscore : ∀ s d, -B ≤ g.getScore s d ∧ g.getScore s d ≤ B)
    (hturns : ∀ s, g.isGameOver s = false → g.getTurnList s ≠ []) :
    ∀ (p depth : ℕ) (s : S),
      -B ≤ negamaxValue g MAXS p depth s ∧ negamaxValue g MAXS p depth s ≤ B := by
  intro p
  induction p with
  | zero => intro depth s; exact hscore s depth
  | succ p ih =>
    intro depth s
    rw [negamaxValue]
    split
    · exact hscore s depth
    · next hgo =>
      rw [foldrMax_eq_foldlMax]
      constructor
      · obtain ⟨m, hm⟩ := List.exists_mem_of_ne_nil _ (hturns s (by simpa using hgo))
        have hmem : -(negamaxValue g MAXS p (depth + 1) (g.applyTurn s m)) ∈
            (g.getTurnList s).map (fun m =>
              -(negamaxValue g MAXS p (depth + 1) (g.applyTurn s m))) :=
          List.mem_map.mpr ⟨m, hm, rfl⟩
        have := elem_le_foldlMax _ (-MAXS) _ hmem
        have hb := ih (depth + 1) (g.applyTurn s m)
        omega
      · refine foldlMax_le _ _ _ (by omega) ?_
        intro x hx
        obtain ⟨m, _, hxm⟩ := List.mem_map.mp hx
        have hb := ih (depth + 1) (g.applyTurn s m)
        omega

theorem negamaxLoop_noAB_score (g : GameSpec S M)
    (rec : S → Int → Int → TranspositionTable M → ℕ →
      NegamaxResult M × TranspositionTable M × ℕ)
    (Vc : S → Int)
    (hrec : ∀ s1 a b t c, ((rec s1 a b t c).1).score = Vc s1) :
    ∀ (L : List (MoveOption S M)) best alpha beta tbl cnt,
      ∃ b2 tbl2 cnt2,
        negamaxLoop g false (fun _ => false) rec L best alpha beta tbl cnt =
          (NegamaxLoopOut.done b2, tbl2, cnt2) ∧
        b2.score = (L.map (fun o => -(Vc o.state))).foldl max best.score := by
  intro L
  induction L with
  | nil =>
    intro best alpha beta tbl cnt
    exact ⟨best, tbl, cnt, rfl, rfl⟩
  | cons o rest ih =>
    intro best alpha beta tbl cnt
    rw [negamaxLoop]
    dsimp only
    rw [if_neg (by simp)]
    rw [if_neg (by simp)]
    obtain ⟨b2, tbl2, cnt2, hlp, hsc⟩ := ih
      (if best.score < (⟨-(rec o.state (-beta) (-alpha) tbl cnt).1.score,
          (rec o.state (-beta) (-alpha) tbl cnt).1.turn⟩ : NegamaxResult M).score then
        (⟨(⟨-(rec o.state (-beta) (-alpha) tbl cnt).1.score,
          (rec o.state (-beta) (-alpha) tbl cnt).1.turn⟩ : NegamaxResult M).score,
          some o.turn⟩ : NegamaxResult M)
      else best)
      (max alpha (⟨-(rec o.state (-beta) (-alpha) tbl cnt).1.score,
          (rec o.state (-beta) (-alpha) tbl cnt).1.turn⟩ : NegamaxResult M).score)
      beta (rec o.state (-beta) (-alpha) tbl cnt).2.1
      ((rec o.state (-beta) (-alpha) tbl cnt).2.2 + 1)
    refine ⟨b2, tbl2, cnt2, hlp, ?_⟩
    rw [hsc, List.map_cons, foldlMax_cons]
    have hbs : (if best.score < (⟨-(rec o.state (-beta) (-alpha) tbl cnt).1.score,
          (rec o.state (-beta) (-alpha) tbl cnt).1.turn⟩ : NegamaxResult M).score then
        (⟨(⟨-(rec o.state (-beta) (-alpha) tbl cnt).1.score,
          (rec o.state (-beta) (-alpha) tbl cnt).1.turn⟩ : NegamaxResult M).score,
          some o.turn⟩ : NegamaxResult M)
      else best).score = max best.score (-(Vc o.state)) := by
      rw [← hrec o.state (-beta) (-alpha) tbl cnt]
      split
      · next hlt => dsimp only; rw [max_eq_right (le_of_lt hlt)]
      · next hlt => dsimp only at hlt ⊢; rw [max_eq_left (by omega)]
    rw [hbs]

theorem search_recurse_noAB_exact (g : GameSpec S M) (MO : Bool) (MAXS : Int) :
    ∀ (p : ℕ) (s : S) (depth : ℕ) (alpha beta : Int) (tbl : TranspositionTable M) (cnt : ℕ),
      ((search_recurse g false MO false MAXS (fun _ => false)
          p s depth alpha beta tbl cnt).1).score =
        negamaxValue g MAXS p depth s := by
  intro p
  induction p with
  | zero =>
    intro s depth alpha beta tbl cnt
    rw [search_recurse, if_neg (by simp), negamaxValue]
  | succ p ih =>
    intro s depth alpha beta tbl cnt
    rw [search_recurse]
    dsimp only
    rw [if_neg (by simp)]
    split
    · next hgo => rw [negamaxValue, if_pos hgo]
    · next hgo =>
      rw [if_neg (by simp)]
      dsimp only
      obtain ⟨b2, tbl2, cnt2, hlp, hsc⟩ := negamaxLoop_noAB_score g
        (fun s1 a b t c =>
          search_recurse g false MO false MAXS (fun _ => false) p s1 (depth + 1) a b t c)
        (fun s1 => negamaxValue g MAXS p (depth + 1) s1)
        (fun s1 a b t c => ih s1 (depth + 1) a b t c)
        (if MO then
            List.insertionSort (fun a b : MoveOption S M => b.score ≤ a.score)
              ((g.getTurnList s).map (fun m =>
                let c := g.applyTurn s m
                MoveOption.mk c m (estimateScoreFor g false MAXS tbl c (depth + 1))))
          else ((g.getTurnList s).map (fun m =>
                let c := g.applyTurn s m
                MoveOption.mk c m (estimateScoreFor g false MAXS tbl c (depth + 1)))))
        ⟨-MAXS, none⟩ alpha beta tbl (cnt + 1)
      rw [hlp]
      dsimp only
      rw [hsc]
      dsimp only
      rw [negamaxValue]
      rw [if_neg (show ¬(g.isGameOver s = true) by simpa using hgo)]
      rw [foldrMax_eq_foldlMax]
      have hperm : (if MO then
            List.insertionSort (fun a b : MoveOption S M => b.score ≤ a.score)
              ((g.getTurnList s).map (fun m =>
                let c := g.applyTurn s m
                MoveOption.mk c m (estimateScoreFor g false MAXS tbl c (depth + 1))))
          else ((g.getTurnList s).map (fun m =>
                let c := g.applyTurn s m
                MoveOption.mk c m (estimateScoreFor g false MAXS tbl c (depth + 1))))).Perm
          ((g.getTurnList s).map (fun m =>
                let c := g.applyTurn s m
                MoveOption.mk c m (estimateScoreFor g false MAXS tbl c (depth + 1)))) := by
        split
        · exact List.perm_insertionSort _ _
        · exact List.Perm.refl _
      rw [foldlMax_perm (List.Perm.map (fun o : MoveOption S M =>
        -(negamaxValue g MAXS p (depth + 1) o.state)) hperm)]
      rw [List.map_map]
      rfl

theorem negamaxLoop_AB_failsoft (g : GameSpec S M)
    (rec : S → Int → Int → TranspositionTable M → ℕ →
      NegamaxResult M × TranspositionTable M × ℕ)
    (Vc : S → Int) (MAXS : Int)
    (hrec : ∀ (s1 : S) (a b : Int) (t : TranspositionTable M) (c : ℕ),
      -MAXS ≤ a → a < b → b ≤ MAXS →
      (Vc s1 ≤ a → Vc s1 ≤ ((rec s1 a b t c).1).score ∧ ((rec s1 a b t c).1).score ≤ a) ∧
      (b ≤ Vc s1 → b ≤ ((rec s1 a b t c).1).score ∧ ((rec s1 a b t c).1).score ≤ Vc s1) ∧
      (a < Vc s1 → Vc s1 < b → ((rec s1 a b t c).1).score = Vc s1)) :
    ∀ (L : List (MoveOption S M)) (best : NegamaxResult M) (alpha beta : Int)
      (tbl : TranspositionTable M) (cnt : ℕ),
      -MAXS ≤ alpha → alpha < beta → beta ≤ MAXS → best.score ≤ alpha →
      ∃ b2 tbl2 cnt2,
        negamaxLoop g true (fun _ => false) rec L best alpha beta tbl cnt =
          (NegamaxLoopOut.done b2, tbl2, cnt2) ∧
        b2.score ≤ max alpha ((L.map (fun o => -(Vc o.state))).foldl max best.score) ∧
        min beta ((L.map (fun o => -(Vc o.state))).foldl max best.score) ≤ b2.score := by
  intro L
  induction L with
  | nil =>
    intro best alpha beta tbl cnt hma hab hbm hbest
    refine ⟨best, tbl, cnt, rfl, ?_, ?_⟩
    · dsimp only [List.map_nil, List.foldl_nil]; omega
    · dsimp only [List.map_nil, List.foldl_nil]; omega
  | cons o rest ih =>
    intro best alpha beta tbl cnt hma hab hbm hbest
    rw [negamaxLoop]
    dsimp only
    have hcase := hrec o.state (-beta) (-alpha) tbl cnt (by omega) (by omega) (by omega)
    have hG : (beta ≤ max alpha (-(rec o.state (-beta) (-alpha) tbl cnt).1.score) →
        beta ≤ -(Vc o.state) ∧
        beta ≤ -(rec o.state (-beta) (-alpha) tbl cnt).1.score ∧
        -(rec o.state (-beta) (-alpha) tbl cnt).1.score ≤ -(Vc o.state)) ∧
        (max alpha (-(rec o.state (-beta) (-alpha) tbl cnt).1.score) < beta →
        -(Vc o.state) ≤ -(rec o.state (-beta) (-alpha) tbl cnt).1.score ∧
        -(rec o.state (-beta) (-alpha) tbl cnt).1.score ≤ max alpha (-(Vc o.state))) := by
      obtain ⟨h1, h2, h3⟩ := hcase
      rcases le_or_lt (-(Vc o.state)) alpha with hA | hA
      · have hx := h2 (by omega)
        exact ⟨fun hb => by omega, fun _ => by omega⟩
      · rcases le_or_lt beta (-(Vc o.state)) with hB | hB
        · have hx := h1 (by omega)
          exact ⟨fun _ => by omega, fun hc => by omega⟩
        · have hx := h3 (by omega) (by omega)
          exact ⟨fun hb => by omega, fun _ => by omega⟩
    have hpvW : -(Vc o.state) ≤
        ((o :: rest).map (fun o => -(Vc o.state))).foldl max best.score :=
      elem_le_foldlMax _ best.score _
        (List.mem_map.mpr ⟨o, List.mem_cons_self o rest, rfl⟩)
    split
    · next hbrk =>
      obtain ⟨-, hbrk⟩ := hbrk
      obtain ⟨hb1, hb2, hb3⟩ := hG.1 hbrk
      refine ⟨_, _, _, rfl, ?_, ?_⟩
      · rw [if_pos (show best.score <
            (⟨-(rec o.state (-beta) (-alpha) tbl cnt).1.score,
              (rec o.state (-beta) (-alpha) tbl cnt).1.turn⟩ : NegamaxResult M).score by
          dsimp only; omega)]
        dsimp only
        omega
      · rw [if_pos (show best.score <
            (⟨-(rec o.state (-beta) (-alpha) tbl cnt).1.score,
              (rec o.state (-beta) (-alpha) tbl cnt).1.turn⟩ : NegamaxResult M).score by
          dsimp only; omega)]
        dsimp only
        omega
    · next hnbrk =>
      have hnb : max alpha (-(rec o.state (-beta) (-alpha) tbl cnt).1.score) < beta := by
        by_contra hc
        exact hnbrk ⟨rfl, by omega⟩
      obtain ⟨hn1, hn2⟩ := hG.2 hnb
      rw [if_neg (by simp)]
      have hbs : (if best.score < (⟨-(rec o.state (-beta) (-alpha) tbl cnt).1.score,
            (rec o.state (-beta) (-alpha) tbl cnt).1.turn⟩ : NegamaxResult M).score then
          (⟨(⟨-(rec o.state (-beta) (-alpha) tbl cnt).1.score,
            (rec o.state (-beta) (-alpha) tbl cnt).1.turn⟩ : NegamaxResult M).score,
            some o.turn⟩ : NegamaxResult M)
        else best).score =
          max best.score (-(rec o.state (-beta) (-alpha) tbl cnt).1.score) := by
        split
        · next hlt => dsimp only; dsimp only at hlt; omega
        · next hlt => dsimp only at hlt ⊢; omega
      obtain ⟨b2, tbl2, cnt2, hlp, hU, hL⟩ := ih
        (if best.score < (⟨-(rec o.state (-beta) (-alpha) tbl cnt).1.score,
            (rec o.state (-beta) (-alpha) tbl cnt).1.turn⟩ : NegamaxResult M).score then
          (⟨(⟨-(rec o.state (-beta) (-alpha) tbl cnt).1.score,
            (rec o.state (-beta) (-alpha) tbl cnt).1.turn⟩ : NegamaxResult M).score,
            some o.turn⟩ : NegamaxResult M)
        else best)
        (max alpha (⟨-(rec o.state (-beta) (-alpha) tbl cnt).1.score,
            (rec o.state (-beta) (-alpha) tbl cnt).1.turn⟩ : NegamaxResult M).score)
        beta (rec o.state (-beta) (-alpha) tbl cnt).2.1
        ((rec o.state (-beta) (-alpha) tbl cnt).2.2 + 1)
        (by dsimp only; omega) (by dsimp only; omega) hbm
        (by rw [hbs]; dsimp only; omega)
      rw [hbs] at hU hL
      have hproj : (⟨-(rec o.state (-beta) (-alpha) tbl cnt).1.score,
          (rec o.state (-beta) (-alpha) tbl cnt).1.turn⟩ : NegamaxResult M).score =
          -(rec o.state (-beta) (-alpha) tbl cnt).1.score := rfl
      have hWle : (rest.map (fun o => -(Vc o.state))).foldl max
          (max best.score (-(rec o.state (-beta) (-alpha) tbl cnt).1.score)) ≤
          max alpha (((o :: rest).map (fun o => -(Vc o.state))).foldl max best.score) := by
        refine foldlMax_le _ _ _ (by omega) ?_
        intro x hx
        have hxW : x ≤ ((o :: rest).map (fun o => -(Vc o.state))).foldl max best.score :=
          elem_le_foldlMax _ best.score x
            (by rw [List.map_cons]; exact List.mem_cons_of_mem _ hx)
        omega
      have hWge : ((o :: rest).map (fun o => -(Vc o.state))).foldl max best.score ≤
          (rest.map (fun o => -(Vc o.state))).foldl max
            (max best.score (-(rec o.state (-beta) (-alpha) tbl cnt).1.score)) := by
        rw [List.map_cons, foldlMax_cons]
        exact foldlMax_mono _ _ _ (by omega)
      refine ⟨b2, tbl2, cnt2, hlp, ?_, ?_⟩
      · omega
      · omega

theorem search_recurse_AB_failsoft (g : GameSpec S M) (MO : Bool) (MAXS : Int) :
    ∀ (p : ℕ) (s : S) (depth : ℕ) (alpha beta : Int) (tbl : TranspositionTable M) (cnt : ℕ),
      -MAXS ≤ alpha → alpha < beta → beta ≤ MAXS →
      (negamaxValue g MAXS p depth s ≤ alpha →
        negamaxValue g MAXS p depth s ≤
          ((search_recurse g true MO false MAXS (fun _ => false)
            p s depth alpha beta tbl cnt).1).score ∧
        ((search_recurse g true MO false MAXS (fun _ => false)
            p s depth alpha beta tbl cnt).1).score ≤ alpha) ∧
      (beta ≤ negamaxValue g MAXS p depth s →
        beta ≤ ((search_recurse g true MO false MAXS (fun _ => false)
            p s depth alpha beta tbl cnt).1).score ∧
        ((search_recurse g true MO false MAXS (fun _ => false)
            p s depth alpha beta tbl cnt).1).score ≤ negamaxValue g MAXS p depth s) ∧
      (alpha < negamaxValue g MAXS p depth s → negamaxValue g MAXS p depth s < beta →
        ((search_recurse g true MO false MAXS (fun _ => false)
            p s depth alpha beta tbl cnt).1).score = negamaxValue g MAXS p depth s) := by
  intro p
  induction p with
  | zero =>
    intro s depth alpha beta tbl cnt hma hab hbm
    rw [search_recurse, if_neg (by simp), negamaxValue]
    dsimp only
    exact ⟨fun h => ⟨le_refl _, h⟩, fun h => ⟨h, le_refl _⟩, fun _ _ => rfl⟩
  | succ p ih =>
    intro s depth alpha beta tbl cnt hma hab hbm
    rw [search_recurse]
    dsimp only
    rw [if_neg (by simp)]
    split
    · next hgo =>
      rw [negamaxValue, if_pos hgo]
      dsimp only
      exact ⟨fun h => ⟨le_refl _, h⟩, fun h => ⟨h, le_refl _⟩, fun _ _ => rfl⟩
    · next hgo =>
      rw [if_neg (by simp)]
      dsimp only
      obtain ⟨b2, tbl2, cnt2, hlp, hU, hL⟩ := negamaxLoop_AB_failsoft g
        (fun s1 a b t c =>
          search_recurse g true MO false MAXS (fun _ => false) p s1 (depth + 1) a b t c)
        (fun s1 => negamaxValue g MAXS p (depth + 1) s1) MAXS
        (fun s1 a b t c ha hab' hb => ih s1 (depth + 1) a b t c ha hab' hb)
        (if MO then
            List.insertionSort (fun a b : MoveOption S M => b.score ≤ a.score)
              ((g.getTurnList s).map (fun m =>
                let c := g.applyTurn s m
                MoveOption.mk c m (estimateScoreFor g false MAXS tbl c (depth + 1))))
          else ((g.getTurnList s).map (fun m =>
                let c := g.applyTurn s m
                MoveOption.mk c m (estimateScoreFor g false MAXS tbl c (depth + 1)))))
        ⟨-MAXS, none⟩ alpha beta tbl (cnt + 1) hma hab hbm
        (show -MAXS ≤ alpha from hma)
      rw [hlp]
      dsimp only
      have hperm : (if MO then
            List.insertionSort (fun a b : MoveOption S M => b.score ≤ a.score)
              ((g.getTurnList s).map (fun m =>
                let c := g.applyTurn s m
                MoveOption.mk c m (estimateScoreFor g false MAXS tbl c (depth + 1))))
          else ((g.getTurnList s).map (fun m =>
                let c := g.applyTurn s m
                MoveOption.mk c m (estimateScoreFor g false MAXS tbl c (depth + 1))))).Perm
          ((g.getTurnList s).map (fun m =>
                let c := g.applyTurn s m
                MoveOption.mk c m (estimateScoreFor g false MAXS tbl c (depth + 1)))) := by
        split
        · exact List.perm_insertionSort _ _
        · exact List.Perm.refl _
      have hVW : ((if MO then
            List.insertionSort (fun a b : MoveOption S M => b.score ≤ a.score)
              ((g.getTurnList s).map (fun m =>
                let c := g.applyTurn s m
                MoveOption.mk c m (estimateScoreFor g false MAXS tbl c (depth + 1))))
          else ((g.getTurnList s).map (fun m =>
                let c := g.applyTurn s m
                MoveOption.mk c m (estimateScoreFor g false MAXS tbl c (depth + 1))))).map
            (fun o => -(negamaxValue g MAXS p (depth + 1) o.state))).foldl max
            ((⟨-MAXS, (none : Option M)⟩ : NegamaxResult M).score) =
          negamaxValue g MAXS (p + 1) depth s := by
        rw [negamaxValue]
        rw [if_neg (show ¬(g.isGameOver s = true) by simpa using hgo)]
        rw [foldrMax_eq_foldlMax]
        rw [foldlMax_perm (List.Perm.map (fun o : MoveOption S M =>
          -(negamaxValue g MAXS p (depth + 1) o.state)) hperm)]
        rw [List.map_map]
        rfl
      have hinit : (⟨-MAXS, (none : Option M)⟩ : NegamaxResult M).score = -MAXS := rfl
      refine ⟨fun h => ?_, fun h => ?_, fun h h' => ?_⟩
      · constructor <;> omega
      · constructor <;> omega
      · omega

theorem negamaxLoop_root_turn (g : GameSpec S M) (AB : Bool)
    (rec : S → Int → Int → TranspositionTable M → ℕ →
      NegamaxResult M × TranspositionTable M × ℕ)
    (Vc : S → Int) (MAXS B : Int) (hB0 : 0 ≤ B) (hM : B < MAXS)
    (hrec : ∀ (s1 : S) (a b : Int) (t : TranspositionTable M) (c : ℕ),
      -MAXS ≤ a → a < b → b ≤ MAXS →
      (Vc s1 ≤ a → Vc s1 ≤ ((rec s1 a b t c).1).score ∧ ((rec s1 a b t c).1).score ≤ a) ∧
      (b ≤ Vc s1 → b ≤ ((rec s1 a b t c).1).score ∧ ((rec s1 a b t c).1).score ≤ Vc s1) ∧
      (a < Vc s1 → Vc s1 < b → ((rec s1 a b t c).1).score = Vc s1)) :
    ∀ (L : List (MoveOption S M)) (best : NegamaxResult M) (alpha : Int)
      (tbl : TranspositionTable M) (cnt : ℕ),
      -MAXS ≤ alpha → alpha < MAXS → best.score = alpha →
      (∀ o ∈ L, -B ≤ Vc o.state ∧ Vc o.state ≤ B) →
      ∃ b2 tbl2 cnt2,
        negamaxLoop g AB (fun _ => false) rec L best alpha MAXS tbl cnt =
          (NegamaxLoopOut.done b2, tbl2, cnt2) ∧
        b2.score = (L.map (fun o => -(Vc o.state))).foldl max best.score ∧
        (b2 = best ∨ ∃ o ∈ L, b2.turn = some o.turn ∧ -(Vc o.state) = b2.score) := by
  intro L
  induction L with
  | nil =>
    intro best alpha tbl cnt hma ham hbsc hbnd
    exact ⟨best, tbl, cnt, rfl, rfl, Or.inl rfl⟩
  | cons o rest ih =>
    intro best alpha tbl cnt hma ham hbsc hbnd
    rw [negamaxLoop]
    dsimp only
    have hcase := hrec o.state (-MAXS) (-alpha) tbl cnt (by omega) (by omega) (by omega)
    have hv := hbnd o (List.mem_cons_self o rest)
    have hproj : (⟨-(rec o.state (-MAXS) (-alpha) tbl cnt).1.score,
        (rec o.state (-MAXS) (-alpha) tbl cnt).1.turn⟩ : NegamaxResult M).score =
        -(rec o.state (-MAXS) (-alpha) tbl cnt).1.score := rfl
    rcases le_or_lt (-(Vc o.state)) alpha with hA | hA
    · have hx := hcase.2.1 (by omega)
      split
      · next hbrk =>
        obtain ⟨hAB, hb2⟩ := hbrk
        omega
      · next =>
        rw [if_neg (by simp)]
        obtain ⟨b2, tbl2, cnt2, hlp, hsc, hturn⟩ := ih
          (if best.score < -(rec o.state (-MAXS) (-alpha) tbl cnt).1.score then
            (⟨-(rec o.state (-MAXS) (-alpha) tbl cnt).1.score, some o.turn⟩ : NegamaxResult M)
          else best)
          (max alpha (-(rec o.state (-MAXS) (-alpha) tbl cnt).1.score))
          (rec o.state (-MAXS) (-alpha) tbl cnt).2.1
          ((rec o.state (-MAXS) (-alpha) tbl cnt).2.2 + 1)
          (by omega) (by omega)
          (by rw [if_neg (by omega)]; omega)
          (fun o' ho' => hbnd o' (List.mem_cons_of_mem o ho'))
        refine ⟨b2, tbl2, cnt2, ?_, ?_, ?_⟩
        · exact hlp
        · rw [hsc, List.map_cons, foldlMax_cons,
            show (if best.score < -(rec o.state (-MAXS) (-alpha) tbl cnt).1.score then
              (⟨-(rec o.state (-MAXS) (-alpha) tbl cnt).1.score, some o.turn⟩ : NegamaxResult M)
            else best).score = max best.score (-(Vc o.state)) by
              rw [if_neg (by omega)]; omega]
        · rcases hturn with h | ⟨o', ho', ht, hvv⟩
          · exact Or.inl (h.trans (if_neg (by omega)))
          · exact Or.inr ⟨o', List.mem_cons_of_mem o ho', ht, hvv⟩
    · have hx := hcase.2.2 (by omega) (by omega)
      split
      · next hbrk =>
        obtain ⟨hAB, hb2⟩ := hbrk
        omega
      · next =>
        rw [if_neg (by simp)]
        obtain ⟨b2, tbl2, cnt2, hlp, hsc, hturn⟩ := ih
          (if best.score < -(rec o.state (-MAXS) (-alpha) tbl cnt).1.score then
            (⟨-(rec o.state (-MAXS) (-alpha) tbl cnt).1.score, some o.turn⟩ : NegamaxResult M)
          else best)
          (max alpha (-(rec o.state (-MAXS) (-alpha) tbl cnt).1.score))
          (rec o.state (-MAXS) (-alpha) tbl cnt).2.1
          ((rec o.state (-MAXS) (-alpha) tbl cnt).2.2 + 1)
          (by omega) (by omega)
          (by rw [if_pos (by omega)]; dsimp only; omega)
          (fun o' ho' => hbnd o' (List.mem_cons_of_mem o ho'))
        refine ⟨b2, tbl2, cnt2, ?_, ?_, ?_⟩
        · exact hlp
        · rw [hsc, List.map_cons, foldlMax_cons,
            show (if best.score < -(rec o.state (-MAXS) (-alpha) tbl cnt).1.score then
              (⟨-(rec o.state (-MAXS) (-alpha) tbl cnt).1.score, some o.turn⟩ : NegamaxResult M)
            else best).score = max best.score (-(Vc o.state)) by
              rw [if_pos (by omega)]; dsimp only; omega]
        · rcases hturn with h | ⟨o', ho', ht, hvv⟩
          · refine Or.inr ⟨o, List.mem_cons_self o rest, ?_, ?_⟩
            · rw [h, if_pos (by omega)]
            · rw [h, if_pos (by omega)]; dsimp only; omega
          · exact Or.inr ⟨o', List.mem_cons_of_mem o ho', ht, hvv⟩

theorem search_recurse_full_window_turn (g : GameSpec S M) (AB MO : Bool)
    (MAXS B : Int) (hB0 : 0 ≤ B) (hM : B < MAXS)
    (hscore : ∀ s d, -B ≤ g.getScore s d ∧ g.getScore s d ≤ B)
    (hturns : ∀ s, g.isGameOver s = false → g.getTurnList s ≠ []) :
    ∀ (d : ℕ) (s : S) (depth : ℕ) (tbl : TranspositionTable M) (cnt : ℕ) (m : M),
      g.isGameOver s = false → m ∈ g.getTurnList s →
      (∀ m' ∈ g.getTurnList s, m' ≠ m →
        -(negamaxValue g MAXS d (depth + 1) (g.applyTurn s m')) <
        -(negamaxValue g MAXS d (depth + 1) (g.applyTurn s m))) →
      ((search_recurse g AB MO false MAXS (fun _ => false)
          (d + 1) s depth (-MAXS) MAXS tbl cnt).1).turn = some m ∧
      ((search_recurse g AB MO false MAXS (fun _ => false)
          (d + 1) s depth (-MAXS) MAXS tbl cnt).1).score =
        -(negamaxValue g MAXS d (depth + 1) (g.applyTurn s m)) := by
  intro d s depth tbl cnt m hgo hm huniq
  have hrec : ∀ (s1 : S) (a b : Int) (t : TranspositionTable M) (c : ℕ),
      -MAXS ≤ a → a < b → b ≤ MAXS →
      (negamaxValue g MAXS d (depth + 1) s1 ≤ a →
        negamaxValue g MAXS d (depth + 1) s1 ≤
          ((search_recurse g AB MO false MAXS (fun _ => false) d s1 (depth + 1) a b t c).1).score ∧
        ((search_recurse g AB MO false MAXS (fun _ => false) d s1 (depth + 1) a b t c).1).score ≤ a) ∧
      (b ≤ negamaxValue g MAXS d (depth + 1) s1 →
        b ≤ ((search_recurse g AB MO false MAXS (fun _ => false) d s1 (depth + 1) a b t c).1).score ∧
        ((search_recurse g AB MO false MAXS (fun _ => false) d s1 (depth + 1) a b t c).1).score ≤
          negamaxValue g MAXS d (depth + 1) s1) ∧
      (a < negamaxValue g MAXS d (depth + 1) s1 → negamaxValue g MAXS d (depth + 1) s1 < b →
        ((search_recurse g AB MO false MAXS (fun _ => false) d s1 (depth + 1) a b t c).1).score =
          negamaxValue g MAXS d (depth + 1) s1) := by
    cases AB
    · intro s1 a b t c ha hab hb
      have he := search_recurse_noAB_exact g MO MAXS d s1 (depth + 1) a b t c
      exact ⟨fun h => by rw [he]; exact ⟨le_refl _, h⟩,
        fun h => by rw [he]; exact ⟨h, le_refl _⟩, fun _ _ => he⟩
    · intro s1 a b t c ha hab hb
      exact search_recurse_AB_failsoft g MO MAXS d s1 (depth + 1) a b t c ha hab hb
  rw [search_recurse]
  dsimp only
  rw [if_neg (by simp)]
  rw [if_neg (show ¬(g.isGameOver s = true) by simpa using hgo)]
  rw [if_neg (by simp)]
  dsimp only
  obtain ⟨b2, tbl2, cnt2, hlp, hsc, hturn⟩ := negamaxLoop_root_turn g AB
    (fun s1 a b t c =>
      search_recurse g AB MO false MAXS (fun _ => false) d s1 (depth + 1) a b t c)
    (fun s1 => negamaxValue g MAXS d (depth + 1) s1) MAXS B hB0 hM
    (fun s1 a b t c ha hab hb => hrec s1 a b t c ha hab hb)
    (if MO then
        List.insertionSort (fun a b : MoveOption S M => b.score ≤ a.score)
          ((g.getTurnList s).map (fun m =>
            let c := g.applyTurn s m
            MoveOption.mk c m (estimateScoreFor g false MAXS tbl c (depth + 1))))
      else ((g.getTurnList s).map (fun m =>
            let c := g.applyTurn s m
            MoveOption.mk c m (estimateScoreFor g false MAXS tbl c (depth + 1)))))
    ⟨-MAXS, none⟩ (-MAXS) tbl (cnt + 1)
    (le_refl _) (by omega) rfl
    (fun o _ => negamaxValue_bounded g MAXS B hB0 hM hscore hturns d (depth + 1) o.state)
  rw [hlp]
  dsimp only
  have hperm : (if MO then
        List.insertionSort (fun a b : MoveOption S M => b.score ≤ a.score)
          ((g.getTurnList s).map (fun m =>
            let c := g.applyTurn s m
            MoveOption.mk c m (estimateScoreFor g false MAXS tbl c (depth + 1))))
      else ((g.getTurnList s).map (fun m =>
            let c := g.applyTurn s m
            MoveOption.mk c m (estimateScoreFor g false MAXS tbl c (depth + 1))))).Perm
      ((g.getTurnList s).map (fun m =>
            let c := g.applyTurn s m
            MoveOption.mk c m (estimateScoreFor g false MAXS tbl c (depth + 1)))) := by
    split
    · exact List.perm_insertionSort _ _
    · exact List.Perm.refl _
  have hbm := negamaxValue_bounded g MAXS B hB0 hM hscore hturns d (depth + 1) (g.applyTurn s m)
  have hW : ((if MO then
        List.insertionSort (fun a b : MoveOption S M => b.score ≤ a.score)
          ((g.getTurnList s).map (fun m =>
            let c := g.applyTurn s m
            MoveOption.mk c m (estimateScoreFor g false MAXS tbl c (depth + 1))))
      else ((g.getTurnList s).map (fun m =>
            let c := g.applyTurn s m
            MoveOption.mk c m (estimateScoreFor g false MAXS tbl c (depth + 1))))).map
        (fun o => -(negamaxValue g MAXS d (depth + 1) o.state))).foldl max
        ((⟨-MAXS, (none : Option M)⟩ : NegamaxResult M).score) =
      -(negamaxValue g MAXS d (depth + 1) (g.applyTurn s m)) := by
    have hproj2 : (⟨-MAXS, (none : Option M)⟩ : NegamaxResult M).score = -MAXS := rfl
    apply le_antisymm
    · refine foldlMax_le _ _ _ (by omega) ?_
      intro x hx
      obtain ⟨o, ho, hxo⟩ := List.mem_map.mp hx
      obtain ⟨m', hm', heq⟩ := List.mem_map.mp ((hperm.mem_iff).mp ho)
      by_cases hmm : m' = m
      · subst hmm
        rw [← hxo, ← heq]
      · have hlt := huniq m' hm' hmm
        rw [← hxo, ← heq]
        exact le_of_lt hlt
    · refine elem_le_foldlMax _ _ _ ?_
      refine List.mem_map.mpr
        ⟨MoveOption.mk (g.applyTurn s m) m
          (estimateScoreFor g false MAXS tbl (g.applyTurn s m) (depth + 1)), ?_, rfl⟩
      exact (hperm.mem_iff).mpr (List.mem_map.mpr ⟨m, hm, rfl⟩)
  constructor
  · rcases hturn with h | ⟨o, ho, ht, hvv⟩
    · exfalso
      have hbs := congrArg NegamaxResult.score h
      dsimp only at hbs
      omega
    · obtain ⟨m', hm', heq⟩ := List.mem_map.mp ((hperm.mem_iff).mp ho)
      by_cases hmm : m' = m
      · subst hmm
        rw [ht, ← heq]
      · exfalso
        have hos : o.state = g.applyTurn s m' := by rw [← heq]
        rw [hos] at hvv
        have hlt := huniq m' hm' hmm
        omega
  · omega

/-- C3 (amended): with transposition tables disabled, Negamax::search
returns the same score for every combination of AB_CUTOFF_ENABLED and
MOVE_ORDERING_ENABLED — the negamax value of the position — for every
game whose scores stay strictly inside (MIN_SCORE, MAX_SCORE) and whose
non-game-over states have moves; and when the root position has a unique
best move, every combination also returns that move. -/
theorem search_without_tt_score_and_move_invariant (g : GameSpec S M)
    (MAXS B : Int) (hB0 : 0 ≤ B) (hM : B < MAXS)
    (hscore : ∀ s d, -B ≤ g.getScore s d ∧ g.getScore s d ≤ B)
    (hturns : ∀ s, g.isGameOver s = false → g.getTurnList s ≠ []) :
    (∀ (AB MO pre : Bool) (s : S) (maxDepth : ℕ) (tbl : TranspositionTable M),
      ((search g AB MO false MAXS pre none s maxDepth tbl).1).score =
        negamaxValue g MAXS maxDepth 0 s) ∧
    (∀ (AB MO pre : Bool) (s : S) (d : ℕ) (tbl : TranspositionTable M) (m : M),
      g.isGameOver s = false → m ∈ g.getTurnList s →
      (∀ m' ∈ g.getTurnList s, m' ≠ m →
        -(negamaxValue g MAXS d 1 (g.applyTurn s m')) <
        -(negamaxValue g MAXS d 1 (g.applyTurn s m))) →
      ((search g AB MO false MAXS pre none s (d + 1) tbl).1).turn = some m) := by
  constructor
  · intro AB MO pre s maxDepth tbl
    cases AB
    · exact search_recurse_noAB_exact g MO MAXS maxDepth s 0 (-MAXS) MAXS tbl 0
    · have hb := negamaxValue_bounded g MAXS B hB0 hM hscore hturns maxDepth 0 s
      exact (search_recurse_AB_failsoft g MO MAXS maxDepth s 0 (-MAXS) MAXS tbl 0
        (le_refl _) (by omega) (le_refl _)).2.2 (by omega) (by omega)
  · intro AB MO pre s d tbl m hgo hm huniq
    exact (search_recurse_full_window_turn g AB MO MAXS B hB0 hM hscore hturns
      d s 0 tbl 0 m hgo hm huniq).1

/-- Concrete instance of the invariance theorem on a mock game. -/
theorem search_without_tt_score_and_move_invariant_witness :
    (0 : Int) ≤ 100 ∧ (100 : Int) < 1000000 ∧
    ((search mockTotalGame true true false 1000000 false none 0 3 (emptyTable ℕ 8)).1).score =
      negamaxValue mockTotalGame 1000000 3 0 0 ∧
    ((search mockTotalGame false true false 1000000 false none 0 (2 + 1)
        (emptyTable ℕ 8)).1).turn = some 0 :=
  ⟨by decide, by decide,
   (search_without_tt_score_and_move_invariant mockTotalGame 1000000 100 (by decide) (by decide)
      (fun s d => ⟨show (-100 : Int) ≤ 0 by decide, show (0 : Int) ≤ 100 by decide⟩)
      (fun s _ => show ([0] : List ℕ) ≠ [] by decide)).1 true true false 0 3 (emptyTable ℕ 8),
   (search_without_tt_score_and_move_invariant mockTotalGame 1000000 100 (by decide) (by decide)
      (fun s d => ⟨show (-100 : Int) ≤ 0 by decide, show (0 : Int) ≤ 100 by decide⟩)
      (fun s _ => show ([0] : List ℕ) ≠ [] by decide)).2 false true false 0 2
      (emptyTable ℕ 8) 0 (by decide) (by decide)
      (fun m' hm' hne => absurd (List.mem_singleton.mp hm') hne)⟩

end Chess3D
